import Mathlib

/-!
Verification of the AIShopping backend's core logic against its design
specification.  The Python sources under `backend/app` are shallowly embedded:
strings become `List Char`, Python floats become `ℚ` (all prices in scope are
exact decimals, and the claims compare parsed decimal values, so rational
arithmetic is a faithful model of the comparisons involved), dicts with
provider-specific keys become association lists over a `PyVal` value type, and
fallible code returns `Option` or `Except`.  Network calls are modelled as
oracle parameters: a function under test receives the would-be responses of
`httpx` as explicit arguments.
-/

namespace AIShopping

/-- Python strings, embedded as lists of characters. -/
abbrev Str := List Char

/-- Python's `\s` class (`str.strip`, `re` whitespace): space, tab, newline,
carriage return, vertical tab, form feed. -/
def pyIsSpace (c : Char) : Bool :=
  c = ' ' || c = '\t' || c = '\n' || c = '\r' || c = '\x0b' || c = '\x0c'

/-- ASCII decimal digit test, the `\d` class of the regexes in scope. -/
def isDigitCh (c : Char) : Bool :=
  '0' ≤ c && c ≤ '9'

/-- Numeric value of an ASCII digit character. -/
def digitVal (c : Char) : Nat :=
  c.toNat - '0'.toNat

/-- Python `str.strip()`: drop whitespace from both ends. -/
def pyStrip (l : Str) : Str :=
  ((l.dropWhile pyIsSpace).reverse.dropWhile pyIsSpace).reverse

/-- Python `str.lower()` on the ASCII strings in scope. -/
def pyLowerStr (l : Str) : Str :=
  l.map Char.toLower

/-- Whether `pat` is a leading piece of `s` (`str.startswith`). -/
def startsW : Str → Str → Bool
  | [], _ => true
  | _ :: _, [] => false
  | p :: ps, c :: cs => p = c && startsW ps cs

/-- Python's `pat in s` substring test. -/
def hasSub (pat : Str) : Str → Bool
  | [] => startsW pat []
  | c :: t => startsW pat (c :: t) || hasSub pat (t)

/-- Value of a run of decimal digit characters read left to right. -/
def decDigitsVal (l : Str) : Nat :=
  l.foldl (fun a c => 10 * a + digitVal c) 0

/-- Exact value of a decimal token `intPart.fracPart`, the model of Python
`float(...)` on the comma-stripped tokens produced by the price scanner. -/
def floatTokVal (intPart fracPart : Str) : ℚ :=
  (decDigitsVal intPart : ℚ) + (decDigitsVal fracPart : ℚ) / ((10 : ℚ) ^ fracPart.length)

/-- The suffix of `s` starting at its first decimal digit, if any: where the
leftmost match of `re.search` for a pattern that begins with `\d` starts. -/
def firstDigitSuffix : Str → Option Str
  | [] => none
  | c :: t => if isDigitCh c then some (c :: t) else firstDigitSuffix t

/-- Characters admitted by the `[\d,]` class of the price regex. -/
def digitOrComma (c : Char) : Bool :=
  isDigitCh c || c = ','

/-- Value of the regex token starting at digit `d` with remaining input `t`:
a maximal `[\d,]` run, an optional dot, a maximal digit run; commas stripped;
read as a float.  The token shapes producible here always parse, so the
`except` branch of the Python `float` call is unreachable. -/
def priceTok (d : Char) (t : Str) : Option ℚ :=
  match t.dropWhile digitOrComma with
  | '.' :: r2 =>
    some (floatTokVal ((d :: t.takeWhile digitOrComma).filter isDigitCh)
      (r2.takeWhile isDigitCh))
  | _ => some ((decDigitsVal ((d :: t.takeWhile digitOrComma).filter isDigitCh) : ℚ))

/-- Scan of a non-empty price string for `re.search(r"(\d[\d,]*\.?\d*)", s)`. -/
def parsePriceStr (s : Str) : Option ℚ :=
  match firstDigitSuffix s with
  | none => none
  | some [] => none
  | some (d :: t) => priceTok d t

/-- Embedding of `_parse_price_value` (`backend/app/api/routes_offers.py`):
`None` and the empty string are falsy and yield nothing; otherwise the first
`\d[\d,]*\.?\d*` token is taken and read as a float. -/
def parse_price_value (price : Option Str) : Option ℚ :=
  match price with
  | none => none
  | some s => if s = [] then none else parsePriceStr s

theorem firstDigitSuffix_append_of_none {pre : Str} (s : Str)
    (h : ∀ c ∈ pre, isDigitCh c = false) :
    firstDigitSuffix (pre ++ s) = firstDigitSuffix s := by
  induction pre with
  | nil => rfl
  | cons c t ih =>
    have hc : isDigitCh c = false := h c (List.mem_cons_self c t)
    simp only [List.cons_append, firstDigitSuffix, hc, if_neg Bool.false_ne_true]
    exact ih fun x hx => h x (List.mem_cons_of_mem c hx)

theorem takeWhile_all_append {p : Char → Bool} {l : Str} (r : Str)
    (hl : ∀ c ∈ l, p c = true) (hr : ∀ c ∈ r.head?, p c = false) :
    (l ++ r).takeWhile p = l ∧ (l ++ r).dropWhile p = r := by
  induction l with
  | nil =>
    cases r with
    | nil => exact ⟨rfl, rfl⟩
    | cons c t =>
      have hc : p c = false := hr c rfl
      constructor
      · simp [List.takeWhile, hc]
      · simp [List.dropWhile, hc]
  | cons c t ih =>
    have hc : p c = true := hl c (List.mem_cons_self c t)
    have ih2 := ih fun x hx => hl x (List.mem_cons_of_mem c hx)
    constructor
    · simp [List.takeWhile, hc, ih2.1]
    · simp [List.dropWhile, hc, ih2.2]

theorem parsePriceStr_cons {s : Str} {d : Char} {t : Str}
    (h : firstDigitSuffix s = some (d :: t)) : parsePriceStr s = priceTok d t := by
  unfold parsePriceStr
  rw [h]

theorem priceTok_frac {t r2 : Str} {d : Char}
    (h : t.dropWhile digitOrComma = '.' :: r2) :
    priceTok d t = some (floatTokVal ((d :: t.takeWhile digitOrComma).filter isDigitCh)
      (r2.takeWhile isDigitCh)) := by
  unfold priceTok
  rw [h]
  rfl

theorem firstDigitSuffix_of_none {s : Str} (h : ∀ c ∈ s, isDigitCh c = false) :
    firstDigitSuffix s = none := by
  induction s with
  | nil => rfl
  | cons c t ih =>
    have hc : isDigitCh c = false := h c (List.mem_cons_self c t)
    simp only [firstDigitSuffix, hc, if_neg Bool.false_ne_true]
    exact ih fun x hx => h x (List.mem_cons_of_mem c hx)

/-- C6.  For any price string of the form `prefix ++ "$" ++ digits-with-commas
++ "." ++ two digits`, where the prefix holds no digit, the parser returns the
exact decimal value (integer part from the comma-stripped digits, plus the two
cent digits over one hundred); a missing string, the empty string and any
string without a digit yield nothing. -/
theorem parse_price_exact (pre g : Str) (a b : Char)
    (hpre : ∀ c ∈ pre, isDigitCh c = false)
    (hg : ∀ c ∈ g, digitOrComma c = true)
    (hg0 : ∃ d t, g = d :: t ∧ isDigitCh d = true)
    (ha : isDigitCh a = true) (hb : isDigitCh b = true) :
    parse_price_value (some (pre ++ '$' :: (g ++ '.' :: [a, b])))
      = some ((decDigitsVal (g.filter isDigitCh) : ℚ)
          + ((10 * digitVal a + digitVal b : ℕ) : ℚ) / 100)
    ∧ parse_price_value none = none
    ∧ parse_price_value (some []) = none
    ∧ (∀ s : Str, (∀ c ∈ s, isDigitCh c = false) → parse_price_value (some s) = none) := by
  refine ⟨?_, rfl, rfl, ?_⟩
  · obtain ⟨d, t, hgdt, hd⟩ := hg0
    subst hgdt
    have hdol : isDigitCh '$' = false := by decide
    have hfds : firstDigitSuffix (pre ++ '$' :: ((d :: t) ++ '.' :: [a, b]))
        = some ((d :: t) ++ '.' :: [a, b]) := by
      have h1 : ∀ c ∈ pre ++ ['$'], isDigitCh c = false := by
        intro c hc
        rcases List.mem_append.mp hc with h | h
        · exact hpre c h
        · simp only [List.mem_singleton] at h; subst h; exact hdol
      have := @firstDigitSuffix_append_of_none (pre ++ ['$'])
        ((d :: t) ++ '.' :: [a, b]) h1
      simpa [firstDigitSuffix, hd] using this
    have htw := takeWhile_all_append (p := digitOrComma) (l := t) ('.' :: [a, b])
      (fun c hc => hg c (List.mem_cons_of_mem d hc)) (by intro c hc; simp at hc; subst hc; decide)
    have hs_ne : pre ++ '$' :: ((d :: t) ++ '.' :: [a, b]) ≠ [] := by
      simp
    have hfr : ([a, b] : Str).takeWhile isDigitCh = [a, b] := by
      simp [List.takeWhile, ha, hb]
    have step : parse_price_value (some (pre ++ '$' :: ((d :: t) ++ '.' :: [a, b])))
        = priceTok d (t ++ '.' :: [a, b]) := by
      simp only [parse_price_value, if_neg hs_ne]
      exact parsePriceStr_cons hfds
    rw [step, priceTok_frac htw.2, htw.1, hfr]
    congr 1
    simp only [floatTokVal]
    congr 1
    have hab : decDigitsVal [a, b] = 10 * digitVal a + digitVal b := by
      simp [decDigitsVal, List.foldl]
    rw [hab]
    norm_num
  · intro s hs
    by_cases hse : s = []
    · simp [parse_price_value, hse]
    · simp [parse_price_value, hse, parsePriceStr, firstDigitSuffix_of_none hs]

/-- Witness for C6 at the spec's own examples: `"From $1,402.58"` parses to
exactly `1402.58`, and `"N/A"` parses to nothing. -/
theorem parse_price_exact_witness :
    parse_price_value (some ("From $1,402.58".data)) = some ((140258 : ℚ) / 100)
    ∧ parse_price_value (some ("N/A".data)) = none := by
  have h := parse_price_exact ("From ".data) ("1,402".data) '5' '8'
    (by decide) (by decide) ⟨'1', ",402".data, by decide, by decide⟩ (by decide) (by decide)
  constructor
  · have h1 := h.1
    have : ("From ".data ++ '$' :: ("1,402".data ++ '.' :: ['5', '8']))
        = "From $1,402.58".data := by decide
    rw [this] at h1
    rw [h1]
    have e1 : decDigitsVal (List.filter isDigitCh "1,402".data) = 1402 := by decide
    have e2 : 10 * digitVal '5' + digitVal '8' = 58 := by decide
    rw [e1, e2]
    norm_num
  · exact h.2.2.2 ("N/A".data) (by decide)

/-! ## Upstream result rows

A SerpApi result row is an untyped JSON object with provider-specific keys.
`PyVal` embeds the Python values such a row can hold; a `Row` is the
association list of one row's fields (insertion ordered, as a Python dict). -/

inductive PyVal where
  | vnone
  | vbool (b : Bool)
  | vint (n : Int)
  | vfloat (q : ℚ)
  | vstr (s : Str)
  | vlist (xs : List PyVal)
  | vdict (fields : List (Str × PyVal))

abbrev Row := List (Str × PyVal)

/-- Python `dict.get`: the value of the first matching key, else nothing. -/
def rget (r : Row) (k : Str) : Option PyVal :=
  match r with
  | [] => none
  | (k1, v) :: t => if k1 = k then some v else rget t k

/-- Python truthiness of the embedded values. -/
def pyTruthy : PyVal → Bool
  | .vnone => false
  | .vbool b => b
  | .vint n => decide (n ≠ 0)
  | .vfloat q => decide (q ≠ 0)
  | .vstr s => decide (s ≠ [])
  | .vlist xs => !xs.isEmpty
  | .vdict f => !f.isEmpty

/-- Decimal digits of a natural number (`str(n)` for `n : Nat`). -/
def natChars (n : Nat) : Str :=
  if n < 10 then [Nat.digitChar n] else natChars (n / 10) ++ [Nat.digitChar (n % 10)]
decreasing_by exact Nat.div_lt_self (by omega) (by omega)

/-- Decimal rendering of an integer (`str(n)` for `n : int`). -/
def intChars (n : Int) : Str :=
  if n < 0 then '-' :: natChars n.natAbs else natChars n.natAbs

/-- Fractional decimal digits of a rational in `[0, 1)`, up to `n` of them. -/
def fracDigits (f : ℚ) (n : Nat) : Str :=
  match n with
  | 0 => []
  | n + 1 =>
    if f = 0 then []
    else
      let f10 := f * 10
      let d := (⌊f10⌋ : ℤ).toNat
      Nat.digitChar d :: fracDigits (f10 - ⌊f10⌋) n

/-- Modelled from the Python `str(float)` rendering, for the non-negative exact
decimals in scope: integer part, a dot, and the fractional digits (a single
`0` when the value is integral, as in `str(5.0) = "5.0"`). -/
def floatRepr (q : ℚ) : Str :=
  let sign : Str := if q < 0 then ['-'] else []
  let a := |q|
  let fs := fracDigits (a - ⌊a⌋) 17
  sign ++ natChars (⌊a⌋ : ℤ).toNat ++ '.' :: (if fs = [] then ['0'] else fs)

/-- Modelled from the Python `str(...)` conversion used on row fields before
substring checks and the price regex.  Container values render as opaque
placeholders here; no code path in scope inspects their rendering beyond
substring tests that fail on them either way. -/
def pyStrOf : PyVal → Str
  | .vnone => "None".data
  | .vbool b => if b then "True".data else "False".data
  | .vint n => intChars n
  | .vfloat q => floatRepr q
  | .vstr s => s
  | .vlist _ => ['['] ++ "...".data ++ [']']
  | .vdict _ => ['\x7b'] ++ "...".data ++ ['\x7d']

/-- `_parse_price_value` applied to a raw row field of any type: falsy values
(including `None`, `""`, `0`) yield nothing, anything else is rendered with
`str(...)` and scanned. -/
def parse_price_raw (price : Option PyVal) : Option ℚ :=
  match price with
  | none => none
  | some v => if pyTruthy v = false then none else parsePriceStr (pyStrOf v)

/-- `isinstance(v, (int, float))` values as floats (Python `bool` is an `int`
subclass, so it passes the check). -/
def numericAsFloat : PyVal → Option ℚ
  | .vint n => some (n : ℚ)
  | .vfloat q => some q
  | .vbool b => some (if b then 1 else 0)
  | _ => none

/-- First numeric value among the `extracted_price` and `price_extracted`
keys, as in the loop of `_extract_price_fields`. -/
def extractedPriceNum (r : Row) : Option ℚ :=
  match (rget r "extracted_price".data).bind numericAsFloat with
  | some q => some q
  | none => (rget r "price_extracted".data).bind numericAsFloat

/-- Embedding of `_extract_price_fields`: the raw `price` field verbatim, and
the numeric value — an extracted numeric field when present, else the parse of
the raw price. -/
def extract_price_fields (r : Row) : Option PyVal × Option ℚ :=
  let priceStr := rget r "price".data
  match extractedPriceNum r with
  | some q => (priceStr, some q)
  | none => (priceStr, parse_price_raw priceStr)

/-- First-match-wins scan over candidate keys for a non-empty string value,
returning it stripped (`_extract_link` / `_extract_source` pattern). -/
def firstStrKey (r : Row) : List Str → Option Str
  | [] => none
  | k :: ks =>
    match rget r k with
    | some (.vstr v) => if pyStrip v ≠ [] then some (pyStrip v) else firstStrKey r ks
    | _ => firstStrKey r ks

/-- Embedding of `_extract_link`. -/
def extract_link (r : Row) : Option Str :=
  firstStrKey r ["link".data, "product_link".data, "productLink".data, "merchant_link".data]

/-- Embedding of `_extract_source`. -/
def extract_source (r : Row) : Option Str :=
  firstStrKey r ["source".data, "merchant".data, "seller".data, "store".data]

/-! ## Offer items -/

/-- Embedding of the `OfferItem` Pydantic model (`backend/app/schemas/offers.py`). -/
structure OfferItem where
  title : Str
  price : Option Str := none
  price_value : Option ℚ := none
  source : Option Str := none
  link : Option Str := none
  thumbnail : Option Str := none
  delivery : Option Str := none
  rating : Option ℚ := none
  reviews : Option Int := none
deriving DecidableEq

inductive PyErr where
  | err (msg : Str)
deriving DecidableEq

/-- Modelled from Pydantic v2 validation of an `Optional[str]` field: `None`
and missing stay absent, strings pass, anything else is a validation error. -/
def asOptStrField : Option PyVal → Except PyErr (Option Str)
  | none => .ok none
  | some .vnone => .ok none
  | some (.vstr s) => .ok (some s)
  | some _ => .error (.err "validation: str expected".data)

/-- Strict-ish model of Python `float(s)` as used by Pydantic string-to-float
coercion: optional surrounding whitespace, optional sign, digits with an
optional dot.  Exponents are out of scope for the fields involved. -/
def pyFloatOfStr (s : Str) : Option ℚ :=
  let t := pyStrip s
  let core := match t with
    | '-' :: u => (u, true)
    | '+' :: u => (u, false)
    | u => (u, false)
  let u := core.1
  let ip := u.takeWhile isDigitCh
  let rest := u.dropWhile isDigitCh
  match rest with
  | [] => if ip = [] then none else some ((if core.2 then -1 else 1) * (decDigitsVal ip : ℚ))
  | '.' :: fr =>
    if fr.all isDigitCh ∧ (ip ≠ [] ∨ fr ≠ []) then
      some ((if core.2 then -1 else 1) * floatTokVal ip fr)
    else none
  | _ => none

/-- Modelled from Pydantic v2 validation of an `Optional[float]` field:
numbers pass (ints coerce), numeric strings coerce, `None` stays absent,
booleans and other values are rejected. -/
def asOptFloatField : Option PyVal → Except PyErr (Option ℚ)
  | none => .ok none
  | some .vnone => .ok none
  | some (.vfloat q) => .ok (some q)
  | some (.vint n) => .ok (some (n : ℚ))
  | some (.vstr s) =>
    match pyFloatOfStr s with
    | some q => .ok (some q)
    | none => .error (.err "validation: float expected".data)
  | some _ => .error (.err "validation: float expected".data)

/-- Modelled from Pydantic v2 validation of an `Optional[int]` field:
ints pass, integral floats coerce, integer strings coerce, `None` stays
absent, everything else is rejected. -/
def asOptIntField : Option PyVal → Except PyErr (Option Int)
  | none => .ok none
  | some .vnone => .ok none
  | some (.vint n) => .ok (some n)
  | some (.vfloat q) => if q.den = 1 then .ok (some q.num) else .error (.err "validation: int expected".data)
  | some (.vstr s) =>
    match pyFloatOfStr s with
    | some q => if q.den = 1 then .ok (some q.num) else .error (.err "validation: int expected".data)
    | none => .error (.err "validation: int expected".data)
  | some _ => .error (.err "validation: int expected".data)

/-- The `r.get("title", default)` field through Pydantic's required-`str`
validation: a missing key takes the default, a string passes, any other value
(including an explicit `None`) is a validation error. -/
def titleFieldOf (defaultTitle : Str) : Option PyVal → Except PyErr Str
  | none => .ok defaultTitle
  | some (.vstr s) => .ok s
  | some _ => .error (.err "validation: title str expected".data)

/-- One iteration of the row loop of the `offers` route: build an `OfferItem`
from a raw row, with `title` defaulting as given; a row whose fields fail the
model's validation raises (propagating to the route's 422 handler). -/
def buildOfferWith (defaultTitle : Str) (r : Row) : Except PyErr OfferItem :=
  (titleFieldOf defaultTitle (rget r "title".data)).bind fun title =>
  (asOptStrField (extract_price_fields r).1).bind fun price =>
  (asOptStrField (rget r "thumbnail".data)).bind fun thumb =>
  (asOptStrField (rget r "delivery".data)).bind fun deliv =>
  (asOptFloatField (rget r "rating".data)).bind fun rating =>
  (asOptIntField (rget r "reviews".data)).map fun reviews =>
  { title := title, price := price, price_value := (extract_price_fields r).2,
    source := extract_source r, link := extract_link r, thumbnail := thumb,
    delivery := deliv, rating := rating, reviews := reviews }

/-- The row-to-offer construction of the main loop of the `offers` route,
whose title default is the literal `"Unknown"`. -/
def buildOffer (r : Row) : Except PyErr OfferItem :=
  buildOfferWith "Unknown".data r

/-! ## Deduplication -/

def titleSrcKey (o : OfferItem) : Str :=
  "title::".data ++ pyLowerStr (pyStrip o.title) ++ "::src::".data
    ++ pyLowerStr (pyStrip (o.source.getD []))

/-- Embedding of `_key_for_dedupe`: the link **verbatim** when truthy (no
lower-casing), else the stripped lower-cased title and source pair. -/
def key_for_dedupe (o : OfferItem) : Str :=
  match o.link with
  | some l => if l ≠ [] then "link::".data ++ l else titleSrcKey o
  | none => titleSrcKey o

def lookupA (k : Str) : List (Str × OfferItem) → Option OfferItem
  | [] => none
  | q :: t => if q.1 = k then some q.2 else lookupA k t

def updateAssoc (k : Str) (o : OfferItem) : List (Str × OfferItem) → List (Str × OfferItem)
  | [] => []
  | q :: t => if q.1 = k then (q.1, o) :: t else q :: updateAssoc k o t

/-- One step of the dedupe loop of the `offers` route: first occurrence of a
key wins its slot; a later offer replaces it (in place) exactly when the
incumbent has no price and the newcomer has one. -/
def dedupeStep (acc : List (Str × OfferItem)) (o : OfferItem) : List (Str × OfferItem) :=
  match lookupA (key_for_dedupe o) acc with
  | none => acc ++ [(key_for_dedupe o, o)]
  | some existing =>
    if existing.price_value = none ∧ o.price_value ≠ none then
      updateAssoc (key_for_dedupe o) o acc
    else acc

/-- The dedupe pass: fold the rows through `dedupeStep` and keep the values in
insertion order (Python dicts preserve insertion order). -/
def dedupe (l : List OfferItem) : List OfferItem :=
  (l.foldl dedupeStep []).map Prod.snd

/-! ## Ranking -/

/-- The sort key of the `offers` route: `(price_value is None, price_value or
0.0)` — missing prices last, then price ascending. -/
def sortKey (o : OfferItem) : Bool × ℚ :=
  (decide (o.price_value = none), o.price_value.getD 0)

/-- Lexicographic order on sort keys (`False < True` on the first component,
as Python compares booleans). -/
def offerLe (a b : OfferItem) : Prop :=
  ((sortKey a).1 = false ∧ (sortKey b).1 = true)
    ∨ ((sortKey a).1 = (sortKey b).1 ∧ (sortKey a).2 ≤ (sortKey b).2)

instance : DecidableRel offerLe := fun a b => by
  unfold offerLe
  infer_instance

instance : IsTotal OfferItem offerLe := by
  constructor
  intro a b
  unfold offerLe
  by_cases h1 : (sortKey a).1 = (sortKey b).1
  · rcases le_total (sortKey a).2 (sortKey b).2 with h | h
    · exact Or.inl (Or.inr ⟨h1, h⟩)
    · exact Or.inr (Or.inr ⟨h1.symm, h⟩)
  · cases ha : (sortKey a).1 <;> cases hb : (sortKey b).1
    · exact absurd (ha.trans hb.symm) h1
    · exact Or.inl (Or.inl ⟨rfl, rfl⟩)
    · exact Or.inr (Or.inl ⟨rfl, rfl⟩)
    · exact absurd (ha.trans hb.symm) h1

instance : IsTrans OfferItem offerLe := by
  constructor
  intro a b c hab hbc
  unfold offerLe at *
  rcases hab with ⟨ha1, hb1⟩ | ⟨hab1, hab2⟩ <;> rcases hbc with ⟨hb1f, hc1⟩ | ⟨hbc1, hbc2⟩
  · rw [hb1] at hb1f; exact absurd hb1f (by simp)
  · exact Or.inl ⟨ha1, hbc1 ▸ hb1⟩
  · exact Or.inl ⟨hab1.trans hb1f, hc1⟩
  · exact Or.inr ⟨hab1.trans hbc1, le_trans hab2 hbc2⟩

/-- Embedding of the final `offers_list.sort(key=...)`: a stable sort by
`sortKey` (insertion sort is stable, and stability plus sortedness determines
`list.sort`'s output uniquely). -/
def sortOffers (l : List OfferItem) : List OfferItem :=
  List.insertionSort offerLe l

/-! ## Preferred-retailer rank (`backend/app/core/retailers.py`) -/

def PREFERRED_RETAILERS : List Str :=
  ["costco".data, "amazon".data, "walmart".data, "target".data, "best buy".data,
    "home depot".data, "lowe".data ++ [Char.ofNat 39] ++ "s".data]

def rankScan (low : Str) : List Str → Nat → Int
  | [], _ => 999
  | p :: t, i => if hasSub p low then (i : Int) else rankScan low t (i + 1)

/-- Embedding of `preferred_rank`: index of the first preferred retailer whose
name occurs in the stripped lower-cased source, else 999; falsy sources
(missing or empty) rank 999. -/
def preferred_rank (source : Option Str) : Int :=
  match source with
  | none => 999
  | some s =>
    if s = [] then 999
    else rankScan (pyLowerStr (pyStrip s)) PREFERRED_RETAILERS 0

/-! ## Dedupe properties (C3) -/

theorem lookupA_none_iff (k : Str) (l : List (Str × OfferItem)) :
    lookupA k l = none ↔ k ∉ l.map Prod.fst := by
  induction l with
  | nil => simp [lookupA]
  | cons p t ih =>
    by_cases h : p.1 = k
    · rw [lookupA, if_pos h]
      simp only [List.map_cons, List.mem_cons]
      exact ⟨fun h1 => absurd h1 (by simp), fun h1 => absurd (Or.inl h.symm) h1⟩
    · rw [lookupA, if_neg h]
      simp only [List.map_cons, List.mem_cons, ih]
      constructor
      · intro h1 hmem
        rcases hmem with hmem | hmem
        · exact h hmem.symm
        · exact h1 hmem
      · intro h1 hmem
        exact h1 (Or.inr hmem)

theorem updateAssoc_map_fst (k : Str) (o : OfferItem) (l : List (Str × OfferItem)) :
    (updateAssoc k o l).map Prod.fst = l.map Prod.fst := by
  induction l with
  | nil => rfl
  | cons p t ih =>
    by_cases h : p.1 = k
    · rw [updateAssoc, if_pos h]
      simp
    · rw [updateAssoc, if_neg h]
      simp [ih]

/-- Invariant of the dedupe accumulator: every slot is keyed by its own
offer's dedupe key, and the keys are pairwise distinct. -/
def accOk (acc : List (Str × OfferItem)) : Prop :=
  (∀ p ∈ acc, key_for_dedupe p.2 = p.1) ∧ (acc.map Prod.fst).Nodup

theorem updateAssoc_entries {k : Str} {o : OfferItem} {l : List (Str × OfferItem)}
    (hk : key_for_dedupe o = k) (h : ∀ p ∈ l, key_for_dedupe p.2 = p.1) :
    ∀ p ∈ updateAssoc k o l, key_for_dedupe p.2 = p.1 := by
  induction l with
  | nil => simp [updateAssoc]
  | cons q t ih =>
    by_cases hq : q.1 = k
    · intro p hp
      rw [updateAssoc, if_pos hq] at hp
      rcases List.mem_cons.mp hp with h1 | h1
      · subst h1; simpa [hq] using hk
      · exact h p (List.mem_cons_of_mem _ h1)
    · intro p hp
      rw [updateAssoc, if_neg hq] at hp
      rcases List.mem_cons.mp hp with h1 | h1
      · subst h1; exact h _ (List.mem_cons_self _ _)
      · exact ih (fun r hr => h r (List.mem_cons_of_mem _ hr)) p h1

theorem dedupeStep_none {acc : List (Str × OfferItem)} {o : OfferItem}
    (h : lookupA (key_for_dedupe o) acc = none) :
    dedupeStep acc o = acc ++ [(key_for_dedupe o, o)] := by
  unfold dedupeStep
  rw [h]

theorem dedupeStep_some {acc : List (Str × OfferItem)} {o existing : OfferItem}
    (h : lookupA (key_for_dedupe o) acc = some existing) :
    dedupeStep acc o = if existing.price_value = none ∧ o.price_value ≠ none then
      updateAssoc (key_for_dedupe o) o acc else acc := by
  unfold dedupeStep
  rw [h]

theorem dedupeStep_ok {acc : List (Str × OfferItem)} {o : OfferItem} (h : accOk acc) :
    accOk (dedupeStep acc o) := by
  cases hl : lookupA (key_for_dedupe o) acc with
  | none =>
    rw [dedupeStep_none hl]
    refine ⟨?_, ?_⟩
    · intro p hp
      rcases List.mem_append.mp hp with h1 | h1
      · exact h.1 p h1
      · simp only [List.mem_singleton] at h1; subst h1; rfl
    · rw [List.map_append]
      simp only [List.map_cons, List.map_nil]
      rw [List.nodup_append]
      refine ⟨h.2, List.nodup_singleton _, ?_⟩
      intro a ha hb
      rw [List.mem_singleton] at hb
      subst hb
      exact ((lookupA_none_iff _ _).mp hl) ha
  | some existing =>
    rw [dedupeStep_some hl]
    by_cases hc : existing.price_value = none ∧ o.price_value ≠ none
    · rw [if_pos hc]
      exact ⟨updateAssoc_entries rfl h.1, by rw [updateAssoc_map_fst]; exact h.2⟩
    · rw [if_neg hc]; exact h

theorem foldl_dedupeStep_ok (l : List OfferItem) :
    ∀ acc, accOk acc → accOk (l.foldl dedupeStep acc) := by
  induction l with
  | nil => intro acc h; exact h
  | cons x t ih => intro acc h; exact ih _ (dedupeStep_ok h)

theorem map_key_snd {acc : List (Str × OfferItem)}
    (h : ∀ p ∈ acc, key_for_dedupe p.2 = p.1) :
    (acc.map Prod.snd).map key_for_dedupe = acc.map Prod.fst := by
  induction acc with
  | nil => rfl
  | cons p t ih =>
    simp only [List.map_cons, List.cons.injEq]
    exact ⟨h p (List.mem_cons_self _ _), ih fun q hq => h q (List.mem_cons_of_mem _ hq)⟩

theorem dedupe_pair (o1 o2 : OfferItem) (h : key_for_dedupe o1 = key_for_dedupe o2) :
    dedupe [o1, o2] = [if o1.price_value = none ∧ o2.price_value ≠ none then o2 else o1] := by
  unfold dedupe
  simp only [List.foldl]
  have s1 : dedupeStep [] o1 = [(key_for_dedupe o1, o1)] := rfl
  rw [s1]
  have hlk : lookupA (key_for_dedupe o2) [(key_for_dedupe o1, o1)] = some o1 := by
    rw [← h]
    simp [lookupA]
  rw [dedupeStep_some hlk]
  by_cases hc : o1.price_value = none ∧ o2.price_value ≠ none
  · rw [if_pos hc, if_pos hc]
    simp [updateAssoc, h]
  · rw [if_neg hc, if_neg hc]
    simp

/-- C3 (amended).  The dedupe key is the **verbatim** stored link when one is
present and non-empty (trimmed at extraction time but not lower-cased), else
the stripped lower-cased (title, source) pair; for two offers with equal key
exactly one survives — the second exactly when only it has a known
`price_value`, the first-seen otherwise — and all surviving offers have
pairwise distinct keys. -/
theorem dedupe_amended :
    (∀ o1 o2 : OfferItem, key_for_dedupe o1 = key_for_dedupe o2 →
      dedupe [o1, o2] = [if o1.price_value = none ∧ o2.price_value ≠ none then o2 else o1])
    ∧ (∀ l : List OfferItem, ((dedupe l).map key_for_dedupe).Nodup)
    ∧ (∀ (o : OfferItem) (l : Str), o.link = some l → l ≠ [] →
        key_for_dedupe o = "link::".data ++ l)
    ∧ (∀ o : OfferItem, o.link = none → key_for_dedupe o = titleSrcKey o) := by
  refine ⟨dedupe_pair, ?_, ?_, ?_⟩
  · intro l
    have h := foldl_dedupeStep_ok l [] ⟨by simp, by simp⟩
    unfold dedupe
    rw [map_key_snd h.1]
    exact h.2
  · intro o l hl hne
    unfold key_for_dedupe
    rw [hl]
    simp [hne]
  · intro o hl
    unfold key_for_dedupe
    rw [hl]

/-- Witness for C3's amended survival rule at a concrete collision: two
offers share the verbatim link, the first has no price, the second does, and
only the second survives. -/
theorem dedupe_amended_witness :
    dedupe [{ title := "w".data, link := some "http://x.com/a".data : OfferItem },
            { title := "w2".data, link := some "http://x.com/a".data,
              price_value := some 5 : OfferItem }]
      = [{ title := "w2".data, link := some "http://x.com/a".data,
           price_value := some 5 : OfferItem }] := by
  have h := dedupe_amended.1
    { title := "w".data, link := some "http://x.com/a".data : OfferItem }
    { title := "w2".data, link := some "http://x.com/a".data, price_value := some 5 : OfferItem }
    (by decide)
  rw [h]
  decide

/-- C3 (counterexample to the lower-casing in the claim).  Two offers whose
links differ only in letter case — so their *canonical* (lower-cased,
trimmed) links are equal — with differing price presence: the claim requires
exactly one survivor, but the code keys on the verbatim link and keeps both. -/
theorem dedupe_claim_counterexample :
    pyLowerStr (pyStrip "HTTP://X.COM/A".data) = pyLowerStr (pyStrip "http://x.com/a".data)
    ∧ ({ title := "w".data, link := some "HTTP://X.COM/A".data : OfferItem }).price_value = none
    ∧ ({ title := "w".data, link := some "http://x.com/a".data,
         price_value := some 5 : OfferItem }).price_value ≠ none
    ∧ dedupe [{ title := "w".data, link := some "HTTP://X.COM/A".data : OfferItem },
              { title := "w".data, link := some "http://x.com/a".data,
                price_value := some 5 : OfferItem }]
      = [{ title := "w".data, link := some "HTTP://X.COM/A".data : OfferItem },
         { title := "w".data, link := some "http://x.com/a".data,
           price_value := some 5 : OfferItem }] := by
  refine ⟨by decide, by decide, by decide, by decide⟩

instance {α : Type} [DecidableEq α] : DecidableEq (Except PyErr α) := fun x y =>
  match x, y with
  | .ok a, .ok b => if h : a = b then isTrue (by rw [h]) else isFalse (by simp [h])
  | .error a, .error b => if h : a = b then isTrue (by rw [h]) else isFalse (by simp [h])
  | .ok _, .error _ => isFalse (by simp)
  | .error _, .ok _ => isFalse (by simp)

/-! ## Ranking properties (C4) -/

/-- The offers with a given sort key, in order: the observation that pins down
a stable sort (Python `list.sort`) uniquely together with sortedness. -/
def filterKey (k : Bool × ℚ) (l : List OfferItem) : List OfferItem :=
  l.filter fun o => decide (sortKey o = k)

theorem offerLe_of_key_eq {a b : OfferItem} (h : sortKey a = sortKey b) : offerLe a b :=
  Or.inr ⟨congrArg Prod.fst h, le_of_eq (congrArg Prod.snd h)⟩

theorem filterKey_orderedInsert (k : Bool × ℚ) (a : OfferItem) (L : List OfferItem) :
    filterKey k (List.orderedInsert offerLe a L)
      = if sortKey a = k then a :: filterKey k L else filterKey k L := by
  induction L with
  | nil =>
    by_cases h : sortKey a = k <;> simp [filterKey, List.orderedInsert, List.filter, h]
  | cons b t ih =>
    by_cases hle : offerLe a b
    · rw [List.orderedInsert_of_le offerLe t hle]
      by_cases h : sortKey a = k <;> simp [filterKey, List.filter, h]
    · have hstep : List.orderedInsert offerLe a (b :: t) = b :: List.orderedInsert offerLe a t := by
        simp [List.orderedInsert, hle]
      have hne : sortKey a ≠ sortKey b := fun e => hle (offerLe_of_key_eq e)
      rw [hstep]
      by_cases h : sortKey a = k
      · have hbk : ¬ sortKey b = k := fun e => hne (h.trans e.symm)
        simp [filterKey, List.filter, h, hbk] at ih ⊢
        exact ih
      · by_cases hbk : sortKey b = k <;>
          simp [filterKey, List.filter, h, hbk] at ih ⊢ <;> exact ih

theorem sortOffers_stable (l : List OfferItem) (k : Bool × ℚ) :
    filterKey k (sortOffers l) = filterKey k l := by
  induction l with
  | nil => rfl
  | cons x t ih =>
    have hx : sortOffers (x :: t) = List.orderedInsert offerLe x (sortOffers t) := rfl
    rw [hx, filterKey_orderedInsert]
    by_cases h : sortKey x = k <;> simp [filterKey, List.filter, h] at ih ⊢ <;> rw [ih]

/-- C4 (amended).  The final ordering sorts solely by the pair (price missing
last, price ascending): the output is sorted for that key, is a permutation
of the input, and is stable — offers with equal sort keys keep their input
order (the three properties together determine Python's `list.sort` output
uniquely).  Neither the priority-source rank nor the title takes part. -/
theorem sort_offers_amended (l : List OfferItem) :
    List.Sorted offerLe (sortOffers l)
    ∧ List.Perm (sortOffers l) l
    ∧ ∀ k, filterKey k (sortOffers l) = filterKey k l :=
  ⟨List.sorted_insertionSort offerLe l, List.perm_insertionSort offerLe l,
    sortOffers_stable l⟩

/-- C4 (counterexample).  With priority mode active, a Costco offer (preferred
rank 0) priced above an Amazon offer (preferred rank 1) is ranked *below* it —
the sort looks only at prices, contradicting the claimed priority-rank-first
composite; and two equal-price offers whose titles are out of alphabetical
order stay in input order — no title tie-break exists. -/
theorem sort_offers_counterexample :
    sortOffers [{ title := "w".data, source := some "Costco".data, price_value := some 100,
                  link := some "c".data : OfferItem },
                { title := "w".data, source := some "Amazon".data, price_value := some 5,
                  link := some "a".data : OfferItem }]
      = [{ title := "w".data, source := some "Amazon".data, price_value := some 5,
           link := some "a".data : OfferItem },
         { title := "w".data, source := some "Costco".data, price_value := some 100,
           link := some "c".data : OfferItem }]
    ∧ preferred_rank (some "Costco".data) = 0
    ∧ preferred_rank (some "Amazon".data) = 1
    ∧ sortOffers [{ title := "b".data, price_value := some 5 : OfferItem },
                  { title := "a".data, price_value := some 5 : OfferItem }]
      = [{ title := "b".data, price_value := some 5 : OfferItem },
         { title := "a".data, price_value := some 5 : OfferItem }] := by
  refine ⟨by decide, by decide, by decide, by decide⟩

/-! ## Row normalization properties (C5) -/

/-- C5 (amended).  Every successfully built offer takes its title from the
row's `title` value when that is a string and the fabricated literal
`"Unknown"` otherwise — no row is rejected for lacking a title; and the
price invariant holds only in the absence of a numeric
`extracted_price`/`price_extracted` field: then `price_value` is exactly the
parse of the raw price field, while a numeric extracted field wins over the
display string otherwise. -/
theorem build_offer_amended (r : Row) (o : OfferItem) (h : buildOffer r = .ok o) :
    (o.title = match rget r "title".data with
      | some (.vstr s) => s
      | _ => "Unknown".data)
    ∧ (extractedPriceNum r = none → o.price_value = parse_price_raw (rget r "price".data))
    ∧ (∀ q, extractedPriceNum r = some q → o.price_value = some q) := by
  unfold buildOffer buildOfferWith at h
  cases h1 : titleFieldOf "Unknown".data (rget r "title".data) with
  | error e => rw [h1] at h; exact absurd h (by simp [Except.bind])
  | ok title =>
  rw [h1] at h
  cases h2 : asOptStrField (extract_price_fields r).1 with
  | error e => rw [h2] at h; exact absurd h (by simp [Except.bind])
  | ok price =>
  rw [h2] at h
  cases h3 : asOptStrField (rget r "thumbnail".data) with
  | error e => rw [h3] at h; exact absurd h (by simp [Except.bind])
  | ok thumb =>
  rw [h3] at h
  cases h4 : asOptStrField (rget r "delivery".data) with
  | error e => rw [h4] at h; exact absurd h (by simp [Except.bind])
  | ok deliv =>
  rw [h4] at h
  cases h5 : asOptFloatField (rget r "rating".data) with
  | error e => rw [h5] at h; exact absurd h (by simp [Except.bind])
  | ok rating =>
  rw [h5] at h
  cases h6 : asOptIntField (rget r "reviews".data) with
  | error e => rw [h6] at h; exact absurd h (by simp [Except.bind, Except.map])
  | ok reviews =>
  rw [h6] at h
  simp only [Except.bind, Except.map, Except.ok.injEq] at h
  subst h
  refine ⟨?_, ?_, ?_⟩
  · cases hv : rget r "title".data with
    | none => rw [hv] at h1; simp only [titleFieldOf, Except.ok.injEq] at h1; exact h1.symm
    | some v =>
      cases v <;> rw [hv] at h1 <;>
        simp only [titleFieldOf, Except.ok.injEq] at h1 <;> first | exact h1.symm | exact absurd h1 (by simp)
  · intro hnone
    simp only [extract_price_fields, hnone]
  · intro q hq
    simp only [extract_price_fields, hq]

/-- Witness for C5's amended claim at a row with a price display and no
extracted numeric field: the built offer's `price_value` equals the parse of
its display string. -/
theorem build_offer_amended_witness :
    ({ title := "Widget".data, price := some "$19.99".data,
       price_value := parse_price_raw (some (.vstr "$19.99".data)) : OfferItem }).price_value
      = parse_price_raw (rget [("title".data, PyVal.vstr "Widget".data),
          ("price".data, PyVal.vstr "$19.99".data)] "price".data) := by
  have h := build_offer_amended
    [("title".data, PyVal.vstr "Widget".data), ("price".data, PyVal.vstr "$19.99".data)]
    { title := "Widget".data, price := some "$19.99".data,
      price_value := parse_price_raw (some (.vstr "$19.99".data)) : OfferItem }
    (by rfl)
  exact h.2.1 (by rfl)

/-- C5 (counterexample).  A row with no title at all builds successfully with
the fabricated title `"Unknown"` instead of being rejected; and a row whose
`extracted_price` (12) disagrees with its cleanly-parsing display string
(`"$10.00"`, parsing to 10) builds an offer whose `price_value` is 12, not the
parsed display value — both halves of the claimed invariant fail. -/
theorem build_offer_counterexample :
    buildOffer [] = .ok { title := "Unknown".data }
    ∧ buildOffer [("price".data, PyVal.vstr "$10.00".data),
                  ("extracted_price".data, PyVal.vfloat 12)]
      = .ok { title := "Unknown".data, price := some "$10.00".data, price_value := some 12 }
    ∧ parse_price_value (some "$10.00".data) = some 10
    ∧ (12 : ℚ) ≠ 10 := by
  refine ⟨by decide, by decide, ?_, by decide⟩
  have h : parse_price_value (some "$10.00".data)
      = some (floatTokVal ['1', '0'] ['0', '0']) := rfl
  rw [h]
  have e1 : decDigitsVal ['1', '0'] = 10 := by decide
  have e2 : decDigitsVal ['0', '0'] = 0 := by decide
  simp only [floatTokVal, e1, e2]
  norm_num

/-! ## The HTTP retry layer (`backend/app/core/gemini.py`) -/

/-- An `httpx` response as the retry loop sees it: status code, optional
`Retry-After` header, body text and parsed JSON body. -/
structure HResp where
  status : Nat
  retryAfterHeader : Option Str := none
  text : Str := []
  jsonBody : Option PyVal := none

/-- The `resp.status_code in (429, 503)` check of `_post_with_retry` and
`_get_with_retry`. -/
def retryable (r : HResp) : Bool :=
  decide (r.status = 429) || decide (r.status = 503)

/-- A 2xx status. -/
def isSuccessStatus (r : HResp) : Bool :=
  decide (200 ≤ r.status) && decide (r.status < 300)

/-- The `for attempt in range(max_retries + 1)` loop of `_post_with_retry` /
`_get_with_retry`, with the would-be responses of successive attempts given as
an oracle: a 429/503 response with attempts remaining backs off and retries;
anything else — or the final attempt's response — is returned.  The second
component counts the requests issued (the loop's trailing
`return last_resp` is unreachable). -/
def postLoop (responses : Nat → HResp) (maxRetries : Nat) (attempt : Nat) : HResp × Nat :=
  if h : retryable (responses attempt) = true ∧ attempt < maxRetries then
    postLoop responses maxRetries (attempt + 1)
  else (responses attempt, attempt + 1)
termination_by maxRetries - attempt
decreasing_by omega

/-- Embedding of `_post_with_retry` (and the identical `_get_with_retry`). -/
def post_with_retry (maxRetries : Nat) (responses : Nat → HResp) : HResp × Nat :=
  postLoop responses maxRetries 0

theorem postLoop_first_stop (responses : Nat → HResp) (R k : Nat) (hk : k ≤ R)
    (hr : ∀ i, i < k → retryable (responses i) = true)
    (hs : retryable (responses k) = false) :
    ∀ a, a ≤ k → postLoop responses R a = (responses k, k + 1) := by
  have main : ∀ n a, a ≤ k → k - a = n → postLoop responses R a = (responses k, k + 1) := by
    intro n
    induction n with
    | zero =>
      intro a ha h0
      have hak : a = k := by omega
      subst hak
      rw [postLoop, dif_neg]
      rintro ⟨h1, _⟩
      rw [hs] at h1
      exact absurd h1 (by simp)
    | succ n ih =>
      intro a ha h0
      have hak : a < k := by omega
      rw [postLoop, dif_pos ⟨hr a hak, by omega⟩]
      exact ih (a + 1) (by omega) (by omega)
  intro a ha
  exact main (k - a) a ha rfl

theorem postLoop_exhaust (responses : Nat → HResp) (R : Nat)
    (hr : ∀ i, i ≤ R → retryable (responses i) = true) :
    ∀ a, a ≤ R → postLoop responses R a = (responses R, R + 1) := by
  have main : ∀ n a, a ≤ R → R - a = n → postLoop responses R a = (responses R, R + 1) := by
    intro n
    induction n with
    | zero =>
      intro a ha h0
      have hak : a = R := by omega
      subst hak
      rw [postLoop, dif_neg]
      rintro ⟨_, h2⟩
      omega
    | succ n ih =>
      intro a ha h0
      have hak : a < R := by omega
      rw [postLoop, dif_pos ⟨hr a (by omega), hak⟩]
      exact ih (a + 1) (by omega) (by omega)
  intro a ha
  exact main (R - a) a ha rfl

theorem postLoop_attempts (responses : Nat → HResp) (R : Nat) :
    ∀ a, a ≤ R → (postLoop responses R a).2 ≤ R + 1 := by
  have main : ∀ n a, a ≤ R → R - a = n → (postLoop responses R a).2 ≤ R + 1 := by
    intro n
    induction n with
    | zero =>
      intro a ha h0
      rw [postLoop]
      by_cases hc : retryable (responses a) = true ∧ a < R
      · omega
      · rw [dif_neg hc]
        omega
    | succ n ih =>
      intro a ha h0
      rw [postLoop]
      by_cases hc : retryable (responses a) = true ∧ a < R
      · rw [dif_pos hc]
        exact ih (a + 1) (by omega) (by omega)
      · rw [dif_neg hc]
        omega
  intro a ha
  exact main (R - a) a ha rfl

theorem not_retryable_of_success {r : HResp} (h : isSuccessStatus r = true) :
    retryable r = false := by
  unfold isSuccessStatus at h
  unfold retryable
  simp only [Bool.and_eq_true, decide_eq_true_eq] at h
  simp only [Bool.or_eq_false_iff, decide_eq_false_iff_not]
  omega

/-- C8.  For every retry ceiling `R` and response sequence: if the first `k ≤
R` responses are rate-limit class (429/503) and response `k` is a success, the
call returns that success after `k + 1` attempts; if every response through
the ceiling is rate-limit class, the call returns the final rate-limited
response after `R + 1` attempts; and the number of attempts never exceeds
`R + 1`. -/
theorem resilient_retry_behavior (R : Nat) (responses : Nat → HResp) :
    (∀ k, k ≤ R → (∀ i, i < k → retryable (responses i) = true) →
      isSuccessStatus (responses k) = true →
      post_with_retry R responses = (responses k, k + 1))
    ∧ ((∀ i, i ≤ R → retryable (responses i) = true) →
      post_with_retry R responses = (responses R, R + 1) ∧ retryable (responses R) = true)
    ∧ (post_with_retry R responses).2 ≤ R + 1 := by
  refine ⟨?_, ?_, ?_⟩
  · intro k hk hr hs
    exact postLoop_first_stop responses R k hk hr (not_retryable_of_success hs) 0 (by omega)
  · intro hr
    exact ⟨postLoop_exhaust responses R hr 0 (by omega), hr R (le_refl R)⟩
  · exact postLoop_attempts responses R 0 (by omega)

/-- The attempt sequence used to witness C8: two 429 responses, then a 200. -/
def retrySeqW : Nat → HResp := fun i =>
  if i < 2 then { status := 429, retryAfterHeader := some "7".data } else { status := 200 }

/-- Witness for C8 with ceiling 2: two rate-limited attempts then a success
returns the success on the third attempt; and with the same sequence under
ceiling 1, the loop stops at the second (still rate-limited) response. -/
theorem resilient_retry_behavior_witness :
    post_with_retry 2 retrySeqW = (retrySeqW 2, 3)
    ∧ (retrySeqW 2).status = 200
    ∧ post_with_retry 1 retrySeqW = (retrySeqW 1, 2)
    ∧ retryable (retrySeqW 1) = true
    ∧ (post_with_retry 2 retrySeqW).2 ≤ 3 := by
  have h2 := resilient_retry_behavior 2 retrySeqW
  have h1 := resilient_retry_behavior 1 retrySeqW
  refine ⟨?_, by decide, ?_, by decide, ?_⟩
  · refine h2.1 2 (by omega) ?_ (by decide)
    intro i hi
    interval_cases i <;> decide
  · refine (h1.2.1 ?_).1
    intro i hi
    interval_cases i <;> decide
  · exact h2.2.2

/-! ## Credential redaction (C9) -/

/-- The `[^&\s]` class of the redaction regex. -/
def isRunChar (c : Char) : Bool :=
  !(c = '&') && !(pyIsSpace c)

/-- Whether the scan position starts a `key=`-plus-run match of
`re.sub(r"(key=)([^&\s]+)", ...)`: the four literal characters followed by at
least one run character; returns that first run character and the rest. -/
def keyHit : Str → Option (Char × Str)
  | c1 :: c2 :: c3 :: c4 :: d :: t =>
    if c1 = 'k' ∧ c2 = 'e' ∧ c3 = 'y' ∧ c4 = '=' ∧ isRunChar d = true then some (d, t) else none
  | _ => none

theorem keyHit_some_length {l : Str} {p : Char × Str} (h : keyHit l = some p) :
    l.length = p.2.length + 5 := by
  match l with
  | [] | [_] | [_, _] | [_, _, _] | [_, _, _, _] => simp [keyHit] at h
  | c1 :: c2 :: c3 :: c4 :: d :: t =>
    rw [keyHit] at h
    by_cases hc : c1 = 'k' ∧ c2 = 'e' ∧ c3 = 'y' ∧ c4 = '=' ∧ isRunChar d = true
    · rw [if_pos hc] at h
      cases h
      simp
    · rw [if_neg hc] at h
      cases h

/-- Embedding of `_redact_key`: replace every (leftmost, non-overlapping)
`key=` followed by a maximal non-empty run of `[^&\s]` characters with
`key=REDACTED`. -/
def redact_key (l : Str) : Str :=
  match l with
  | [] => []
  | c :: t =>
    match hh : keyHit (c :: t) with
    | some p => "key=REDACTED".data ++ redact_key (p.2.dropWhile isRunChar)
    | none => c :: redact_key t
termination_by l.length
decreasing_by
  · have h1 := keyHit_some_length hh
    have h2 := (List.dropWhile_sublist (l := p.2) isRunChar).length_le
    simp at h1 ⊢
    omega
  · simp

theorem redact_key_cons {c : Char} {t : Str} (h : keyHit (c :: t) = none) :
    redact_key (c :: t) = c :: redact_key t := by
  rw [redact_key, h]

/-- A usable API credential: non-empty, and free of `&` and whitespace (the
characters that terminate a query-parameter value). -/
def goodKey (k : Str) : Prop :=
  k ≠ [] ∧ ∀ c ∈ k, isRunChar c = true

theorem redact_key_keyrun {k : Str} (hne : k ≠ []) (hrun : ∀ c ∈ k, isRunChar c = true) :
    redact_key ("key=".data ++ k) = "key=REDACTED".data := by
  obtain ⟨d, t, rfl⟩ : ∃ d t, k = d :: t := by
    cases k with
    | nil => exact absurd rfl hne
    | cons d t => exact ⟨d, t, rfl⟩
  have hkh : keyHit ('k' :: 'e' :: 'y' :: '=' :: d :: t) = some (d, t) := by
    rw [keyHit, if_pos ⟨rfl, rfl, rfl, rfl, hrun d (List.mem_cons_self _ _)⟩]
  show redact_key ('k' :: 'e' :: 'y' :: '=' :: d :: t) = _
  rw [redact_key, hkh]
  show "key=REDACTED".data ++ redact_key (t.dropWhile isRunChar) = _
  have hdrop : t.dropWhile isRunChar = [] :=
    List.dropWhile_eq_nil_iff.mpr fun x hx => hrun x (List.mem_cons_of_mem _ hx)
  rw [hdrop]
  simp [redact_key]

theorem keyHit_scan_none (c : Char) (pre : Str) (hpre : '=' ∉ c :: pre) (x : Str) :
    keyHit (c :: pre ++ "key=".data ++ x) = none := by
  have hc : c ≠ '=' := fun h => hpre (h ▸ List.mem_cons_self _ _)
  match pre with
  | [] =>
    rw [show (c :: ([] : Str) ++ "key=".data ++ x) = c :: 'k' :: 'e' :: 'y' :: '=' :: x from rfl]
    rw [keyHit, if_neg]
    rintro ⟨_, h2, _⟩
    exact absurd h2 (by decide)
  | [a] =>
    rw [show (c :: [a] ++ "key=".data ++ x) = c :: a :: 'k' :: 'e' :: 'y' :: ('=' :: x) from rfl]
    rw [keyHit, if_neg]
    rintro ⟨_, _, h3, _⟩
    exact absurd h3 (by decide)
  | [a, b] =>
    rw [show (c :: [a, b] ++ "key=".data ++ x)
      = c :: a :: b :: 'k' :: 'e' :: ('y' :: '=' :: x) from rfl]
    rw [keyHit, if_neg]
    rintro ⟨_, _, _, h4, _⟩
    exact absurd h4 (by decide)
  | a :: b :: e2 :: rest =>
    have he2 : e2 ≠ '=' := by
      intro h
      exact hpre (by simp [h])
    match rest with
    | [] =>
      rw [show (c :: [a, b, e2] ++ "key=".data ++ x)
        = c :: a :: b :: e2 :: 'k' :: ('e' :: 'y' :: '=' :: x) from rfl]
      rw [keyHit, if_neg]
      rintro ⟨_, _, _, h4, _⟩
      exact absurd h4 he2
    | f :: rest2 =>
      rw [show (c :: (a :: b :: e2 :: f :: rest2) ++ "key=".data ++ x)
        = c :: a :: b :: e2 :: f :: (rest2 ++ "key=".data ++ x) from by simp]
      rw [keyHit, if_neg]
      rintro ⟨_, _, _, h4, _⟩
      exact absurd h4 he2

theorem redact_key_param (pre : Str) (hpre : '=' ∉ pre) {k k' : Str}
    (hk : goodKey k) (hk' : goodKey k') :
    redact_key (pre ++ "key=".data ++ k) = redact_key (pre ++ "key=".data ++ k') := by
  induction pre with
  | nil =>
    simp only [List.nil_append]
    rw [redact_key_keyrun hk.1 hk.2, redact_key_keyrun hk'.1 hk'.2]
  | cons c pre ih =>
    have ih2 := ih fun hm => hpre (List.mem_cons_of_mem c hm)
    rw [show (c :: pre ++ "key=".data ++ k) = c :: (pre ++ "key=".data ++ k) from by simp]
    rw [show (c :: pre ++ "key=".data ++ k') = c :: (pre ++ "key=".data ++ k') from by simp]
    rw [redact_key_cons (by
      have := keyHit_scan_none c pre hpre k
      simpa using this)]
    rw [redact_key_cons (by
      have := keyHit_scan_none c pre hpre k'
      simpa using this)]
    rw [ih2]

/-- The Gemini service base, as in `gemini.py`. -/
def API_BASE : Str :=
  "https://generativelanguage.googleapis.com/v1beta".data

/-- The full request URL of a `generateContent` call as `httpx` renders it:
path plus the `key` query parameter. -/
def gemini_url (model key : Str) : Str :=
  API_BASE ++ "/".data ++ model ++ ":generateContent?key=".data ++ key

/-- The error message raised by `identify_from_image` on a non-2xx response:
status, redacted URL, redacted 2000-character body excerpt. -/
def gemini_error_msg (status : Nat) (model key body : Str) : Str :=
  "Gemini request failed: ".data ++ natChars status ++ "\nURL:\n".data
    ++ redact_key (gemini_url model key) ++ "\nBODY:\n".data ++ (redact_key body).take 2000

/-- The error message raised by `shopping_search` / `google_search` on a
non-2xx response: status and the upstream body, with no redaction. -/
def serpapi_error_msg (status : Nat) (body : Str) : Str :=
  "SerpAPI request failed: ".data ++ natChars status ++ "\nBODY:\n".data ++ body

/-- C9 (amended).  The generative-model client's error messages are
independent of the API credential — for any two well-formed credentials the
raised message is identical, so the credential value can never appear through
its own parameter (its `key=` query parameter, and any `key=` pattern in the
body, are redacted).  The search client's error message, by contrast, omits
the URL but embeds the upstream body verbatim as a suffix with no redaction,
so a credential echoed by the upstream body is passed straight through. -/
theorem redaction_amended :
    (∀ (status : Nat) (model body : Str) (k k' : Str),
      '=' ∉ model → goodKey k → goodKey k' →
      gemini_error_msg status model k body = gemini_error_msg status model k' body)
    ∧ (∀ (status : Nat) (body : Str),
      List.IsSuffix body (serpapi_error_msg status body)) := by
  constructor
  · intro status model body k k' hm hk hk'
    unfold gemini_error_msg
    have hu : ∀ kk : Str, gemini_url model kk
        = (API_BASE ++ "/".data ++ model ++ ":generateContent?".data) ++ "key=".data ++ kk := by
      intro kk
      unfold gemini_url
      simp only [List.append_assoc]
      congr 2
    have hpre : '=' ∉ API_BASE ++ "/".data ++ model ++ ":generateContent?".data := by
      intro hmem
      rcases List.mem_append.mp hmem with hmem | hmem
      · rcases List.mem_append.mp hmem with hmem | hmem
        · rcases List.mem_append.mp hmem with hmem | hmem
          · exact absurd hmem (by decide)
          · exact absurd hmem (by decide)
        · exact hm hmem
      · exact absurd hmem (by decide)
    rw [hu k, hu k', redact_key_param _ hpre hk hk']
  · intro status body
    exact ⟨"SerpAPI request failed: ".data ++ natChars status ++ "\nBODY:\n".data,
      by simp [serpapi_error_msg]⟩

/-- Witness for C9's amended claim at concrete credentials: the Gemini error
message for key `SECRETA` equals the one for key `SECRETB` — the credential
does not influence the message. -/
theorem redaction_amended_witness :
    gemini_error_msg 400 "models/gemini-2.5-flash".data "SECRETA".data "bad request".data
      = gemini_error_msg 400 "models/gemini-2.5-flash".data "SECRETB".data "bad request".data :=
  redaction_amended.1 400 "models/gemini-2.5-flash".data "bad request".data
    "SECRETA".data "SECRETB".data (by decide) ⟨by decide, by decide⟩ ⟨by decide, by decide⟩

/-- C9 (counterexample).  When the search upstream echoes the request (as in
a SerpApi error body), the credential appears verbatim in the raised message:
no redaction is applied on that path — while `_redact_key`, had it been
applied as the claim asserts, would have removed it. -/
theorem redaction_counterexample :
    hasSub "SECRET0".data (serpapi_error_msg 401 "api_key=SECRET0 is invalid".data) = true
    ∧ hasSub "SECRET0".data (redact_key "api_key=SECRET0 is invalid".data) = false := by
  constructor
  · have hn : natChars 401 = ['4', '0', '1'] := by
      simp [natChars, Nat.digitChar]
    simp only [serpapi_error_msg, hn]
    decide
  · have h : redact_key "api_key=SECRET0 is invalid".data
        = "api_key=REDACTED is invalid".data := by
      simp [redact_key, keyHit, isRunChar, pyIsSpace]
    rw [h]
    decide

/-! ## The offers aggregation endpoint (`routes_offers.py`, C1) -/

mutual

/-- Embedding of `_iter_json_objects`: every dict reachable inside a JSON
value, in pre-order. -/
def iter_json_objects : PyVal → List PyVal
  | .vdict fs => .vdict fs :: iterFields fs
  | .vlist xs => iterList xs
  | _ => []

def iterFields : List (Str × PyVal) → List PyVal
  | [] => []
  | p :: t => iter_json_objects p.2 ++ iterFields t

def iterList : List PyVal → List PyVal
  | [] => []
  | v :: t => iter_json_objects v ++ iterList t

end

/-- Embedding of `_plausible_price`. -/
def plausible_price (x : ℚ) : Bool :=
  decide (10 ≤ x) && decide (x ≤ 20000)

/-- The part of `re.search(r"\$\s?(\d[\d,]*\.\d{2})", text)` after a `$`:
one optional whitespace, a digit, a maximal digit/comma run, a dot and two
digits; the value of the captured number (further digits are not part of the
match and the competing quantifiers leave no real backtracking). -/
def dollarNum (s : Str) : Option ℚ :=
  let s1 := match s with
    | c :: t => if pyIsSpace c then t else s
    | [] => []
  match s1 with
  | [] => none
  | d :: t =>
    if isDigitCh d then
      match t.dropWhile digitOrComma with
      | '.' :: a :: b :: _ =>
        if isDigitCh a ∧ isDigitCh b then
          some (floatTokVal ((d :: t.takeWhile digitOrComma).filter isDigitCh) [a, b])
        else none
      | _ => none
    else none

/-- Leftmost `$`-price match in a text: try each `$` in order. -/
def dollarScanVal : Str → Option ℚ
  | [] => none
  | c :: t =>
    if c = '$' then
      match dollarNum t with
      | some q => some q
      | none => dollarScanVal t
    else dollarScanVal t

/-- The `snippet` candidate of `_extract_price_from_serpapi_organic_result`:
a string value with non-whitespace content. -/
def strIfTruthy (v : Option PyVal) : List Str :=
  match v with
  | some (.vstr s) => if pyStrip s ≠ [] then [s] else []
  | _ => []

/-- The `extensions` / `detected_extensions` candidates: non-blank strings of
a list value. -/
def listStrCandidates (v : Option PyVal) : List Str :=
  match v with
  | some (.vlist items) =>
    items.filterMap fun it =>
      match it with
      | .vstr s => if pyStrip s ≠ [] then some s else none
      | _ => none
  | _ => []

/-- The `rich_snippet` candidates: all non-blank string values of all nested
dicts. -/
def richCandidates (v : Option PyVal) : List Str :=
  match v with
  | some rich =>
    if pyTruthy rich then
      (iter_json_objects rich).flatMap fun d =>
        match d with
        | .vdict fs =>
          fs.filterMap fun p =>
            match p.2 with
            | .vstr s => if pyStrip s ≠ [] then some s else none
            | _ => none
        | _ => []
    else []
  | none => []

/-- The candidate loop: first candidate whose `$`-price parses to a plausible
value wins; an implausible match moves on to the next candidate. -/
def orgPriceScan : List Str → Option ℚ
  | [] => none
  | text :: rest =>
    match dollarScanVal text with
    | some pv => if plausible_price pv then some pv else orgPriceScan rest
    | none => orgPriceScan rest

/-- Embedding of `_extract_price_from_serpapi_organic_result`. -/
def extract_price_from_serpapi_organic_result (r : Row) : Option ℚ :=
  orgPriceScan (strIfTruthy (rget r "snippet".data)
    ++ listStrCandidates (rget r "extensions".data)
    ++ listStrCandidates (rget r "detected_extensions".data)
    ++ richCandidates (rget r "rich_snippet".data))

/-- Comma grouping of a reversed digit string: a comma after every third
digit. -/
def groupRev : Str → Str
  | a :: b :: c :: d :: t => a :: b :: c :: ',' :: groupRev (d :: t)
  | l => l

/-- Round to the nearest integer, ties to even (the rounding of Python's
`format`). -/
def roundHalfEven (x : ℚ) : Int :=
  let f := ⌊x⌋
  let r := x - f
  if r < 1 / 2 then f
  else if 1 / 2 < r then f + 1
  else if f % 2 = 0 then f else f + 1

/-- Modelled from Python `f"${pv:,.2f}"`: dollar sign, comma-grouped integer
part, dot, two cent digits (values in scope are non-negative). -/
def formatUSD (q : ℚ) : Str :=
  let n := (roundHalfEven (q * 100)).natAbs
  let sign : Str := if q < 0 then ['-'] else []
  '$' :: sign ++ (groupRev (natChars (n / 100)).reverse).reverse
    ++ '.' :: [Nat.digitChar (n % 100 / 10), Nat.digitChar (n % 10)]

/-- The responses of the upstream calls one `offers` request can make,
supplied as oracles: the primary shopping search, the supplementary
`"{q} Costco"` shopping search, the `site:costco.com` web search, and the
best-effort Costco page scrape (which catches its own exceptions and never
raises). -/
structure OffersEnv where
  baseSearch : Except PyErr Row
  costcoShopping : Except PyErr Row
  costcoWeb : Except PyErr Row
  fetchPrice : Option Str × Option ℚ

/-- A result row must be a dict to be processed (`r.get(...)` on anything
else raises). -/
def asRow : PyVal → Except PyErr Row
  | .vdict fs => .ok fs
  | _ => .error (.err "row is not a dict".data)

/-- `raw.get(key, []) or []`: a missing or falsy container is zero rows, a
list is its rows, and any other truthy value makes the iteration raise. -/
def getRows (d : Row) (key : Str) : Except PyErr (List PyVal) :=
  match rget d key with
  | none => .ok []
  | some (.vlist xs) => .ok xs
  | some v => if pyTruthy v then .error (.err "result container is not a list".data) else .ok []

/-- The `OfferItem` construction of `_costco_from_serpapi_shopping`: like the
main builder but with title default `"Costco offer"` and source defaulting to
`"Costco"`. -/
def buildOfferC (r : Row) : Except PyErr OfferItem :=
  (titleFieldOf "Costco offer".data (rget r "title".data)).bind fun title =>
  (asOptStrField (extract_price_fields r).1).bind fun price =>
  (asOptStrField (rget r "thumbnail".data)).bind fun thumb =>
  (asOptStrField (rget r "delivery".data)).bind fun deliv =>
  (asOptFloatField (rget r "rating".data)).bind fun rating =>
  (asOptIntField (rget r "reviews".data)).map fun reviews =>
  { title := title, price := price, price_value := (extract_price_fields r).2,
    source := some ((extract_source r).getD "Costco".data), link := extract_link r,
    thumbnail := thumb, delivery := deliv, rating := rating, reviews := reviews }

/-- The row scan of `_costco_from_serpapi_shopping`: first row that looks
like Costco (source, title or link) *and* has a numeric price becomes an
offer; rows without a price are passed over. -/
def costcoScanRows : List PyVal → Except PyErr (Option OfferItem)
  | [] => .ok none
  | v :: rest =>
    (asRow v).bind fun r =>
    let src := pyLowerStr ((extract_source r).getD [])
    let tv := (rget r "title".data).getD .vnone
    let titleL := pyLowerStr (if pyTruthy tv then pyStrOf tv else [])
    let lnk := pyLowerStr ((extract_link r).getD [])
    if hasSub "costco".data src || hasSub "costco".data titleL || hasSub "costco.com".data lnk then
      match (extract_price_fields r).2 with
      | some _ => (buildOfferC r).map some
      | none => costcoScanRows rest
    else costcoScanRows rest

/-- Embedding of `_costco_from_serpapi_shopping` over the oracle. -/
def costco_from_serpapi_shopping (env : OffersEnv) : Except PyErr (Option OfferItem) :=
  env.costcoShopping.bind fun raw =>
  (getRows raw "shopping_results".data).bind fun results =>
  costcoScanRows results

/-- The organic-result scan of `_costco_fallback_offer`: first row whose
`link` is a string containing `costco.com`. -/
def findCostcoOrganic : List PyVal → Except PyErr (Option Row)
  | [] => .ok none
  | v :: rest =>
    (asRow v).bind fun r =>
    match rget r "link".data with
    | some (.vstr l) => if hasSub "costco.com".data l then .ok (some r) else findCostcoOrganic rest
    | _ => findCostcoOrganic rest

/-- Embedding of `_costco_fallback_offer`: shopping-merchant price first,
then a `site:costco.com` web result with a price parsed from its SerpApi
fields, then the best-effort page scrape (entry kept even with a null
price), and `None` when no costco.com result (or no usable link) exists.  A
raise from either supplementary search propagates. -/
def costco_fallback_offer (env : OffersEnv) : Except PyErr (Option OfferItem) :=
  (costco_from_serpapi_shopping env).bind fun fromShopping =>
  match fromShopping with
  | some o => .ok (some o)
  | none =>
    env.costcoWeb.bind fun raw =>
    (getRows raw "organic_results".data).bind fun organic =>
    (findCostcoOrganic organic).bind fun found =>
    match found with
    | none => .ok none
    | some costcoResult =>
      let costcoUrl := rget costcoResult "link".data
      match extract_price_from_serpapi_organic_result costcoResult with
      | some pv =>
        (asOptStrField costcoUrl).map fun lnk =>
        some { title := "Costco (membership) - product page".data,
               price := some (formatUSD pv), price_value := some pv,
               source := some "Costco".data, link := lnk }
      | none =>
        match costcoUrl with
        | some (.vstr l) =>
          if pyStrip l ≠ [] then
            .ok (some { title := "Costco (membership) - product page".data,
                        price := env.fetchPrice.1, price_value := env.fetchPrice.2,
                        source := some "Costco".data, link := some l })
          else .ok none
        | _ => .ok none

/-- The `any("costco" in (o.source or "").lower() ...)` check. -/
def hasCostcoSource (offersList : List OfferItem) : Bool :=
  offersList.any fun o => hasSub "costco".data (pyLowerStr (o.source.getD []))

/-- `max(1, min(int(num), 50))`. -/
def truncCount (num : Int) : Nat :=
  (max 1 (min num 50)).toNat

/-- Embedding of the `offers` route body over the call oracle (the query and
locale parameters shape only the outgoing requests, which the oracle answers;
they do not otherwise enter the computation): primary rows are normalized,
the Costco fallback runs when membership mode is on and no offer's source
mentions costco, then dedupe, sort, truncate.  The route's `except` handler
turns any raise into a 422 error — the `.error` branch here. -/
def offers (env : OffersEnv) (num : Int) (include_membership : Bool) :
    Except PyErr (List OfferItem) :=
  env.baseSearch.bind fun baseRaw =>
  (getRows baseRaw "shopping_results".data).bind fun baseResults =>
  (baseResults.mapM fun v => (asRow v).bind buildOffer).bind fun offersList =>
  (if include_membership = true ∧ hasCostcoSource offersList = false then
      (costco_fallback_offer env).map fun co =>
        match co with
        | some o => offersList ++ [o]
        | none => offersList
    else .ok offersList).bind fun offersList2 =>
  .ok ((sortOffers (dedupe offersList2)).take (truncCount num))

/-- A run in priority mode whose primary search succeeds with one non-Costco
row and whose supplementary Costco shopping search raises. -/
def envC1 : OffersEnv :=
  { baseSearch := .ok [("shopping_results".data,
      .vlist [.vdict [("title".data, .vstr "Widget".data), ("source".data, .vstr "Amazon".data)]])],
    costcoShopping := .error (.err "SerpAPI request failed: 500".data),
    costcoWeb := .ok [],
    fetchPrice := (none, none) }

/-- C1 (counterexample).  In priority mode with no offer matching the
priority source, a failure of the *supplementary* priority-source search is
fatal: the whole aggregation returns the error — no offer list, let alone one
containing an entry for the priority source — contradicting both the claimed
guarantee and the claimed non-fatality. -/
theorem offers_priority_counterexample :
    offers envC1 10 true = .error (.err "SerpAPI request failed: 500".data) := by
  decide

/-- The synthesized-by-scrape-failure Costco entry: product-page link, null
price. -/
def costcoEntry (url : Str) : OfferItem :=
  { title := "Costco (membership) - product page".data, price := none, price_value := none,
    source := some "Costco".data, link := some url }

/-- A run in priority mode whose primary and supplementary searches succeed,
the shopping search finding nothing and the web search finding one
costco.com result with no price anywhere; the page scrape also fails. -/
def envFallback (url : Str) : OffersEnv :=
  { baseSearch := .ok [],
    costcoShopping := .ok [],
    costcoWeb := .ok [("organic_results".data, .vlist [.vdict [("link".data, .vstr url)]])],
    fetchPrice := (none, none) }

theorem truncCount_pos (num : Int) : 1 ≤ truncCount num := by
  unfold truncCount
  omega

theorem ok_bind {α β : Type} (a : α) (f : α → Except PyErr β) :
    (Except.ok a).bind f = f a := rfl

/-- Entries of `updateAssoc` are the replacement or old entries. -/
theorem updateAssoc_mem {k : Str} {o : OfferItem} {l : List (Str × OfferItem)} :
    ∀ p ∈ updateAssoc k o l, p.2 = o ∨ p ∈ l := by
  induction l with
  | nil =>
    intro p hp
    simp [updateAssoc] at hp
  | cons q t ih =>
    intro p hp
    by_cases hq : q.1 = k
    · rw [updateAssoc, if_pos hq] at hp
      rcases List.mem_cons.mp hp with h1 | h1
      · rw [h1]
        exact Or.inl rfl
      · exact Or.inr (List.mem_cons_of_mem _ h1)
    · rw [updateAssoc, if_neg hq] at hp
      rcases List.mem_cons.mp hp with h1 | h1
      · rw [h1]
        exact Or.inr (List.mem_cons_self _ _)
      · rcases ih p h1 with h2 | h2
        · exact Or.inl h2
        · exact Or.inr (List.mem_cons_of_mem _ h2)

/-- One dedupe step only keeps incumbents or inserts the new offer. -/
theorem dedupeStep_mem (acc : List (Str × OfferItem)) (o : OfferItem) :
    ∀ p ∈ dedupeStep acc o, p ∈ acc ∨ p.2 = o := by
  unfold dedupeStep
  cases hl : lookupA (key_for_dedupe o) acc with
  | none =>
    intro p hp
    rcases List.mem_append.mp hp with h | h
    · exact Or.inl h
    · rw [List.mem_singleton] at h
      rw [h]
      exact Or.inr rfl
  | some ex =>
    intro p hp
    have hp2 : p ∈ (if ex.price_value = none ∧ o.price_value ≠ none then
        updateAssoc (key_for_dedupe o) o acc else acc) := hp
    by_cases hc : ex.price_value = none ∧ o.price_value ≠ none
    · rw [if_pos hc] at hp2
      rcases updateAssoc_mem p hp2 with h | h
      · exact Or.inr h
      · exact Or.inl h
    · rw [if_neg hc] at hp2
      exact Or.inl hp2

theorem foldl_dedupeStep_mem (l : List OfferItem) :
    ∀ (acc : List (Str × OfferItem)), ∀ p ∈ l.foldl dedupeStep acc, p ∈ acc ∨ p.2 ∈ l := by
  induction l with
  | nil =>
    intro acc p hp
    exact Or.inl hp
  | cons o t ih =>
    intro acc p hp
    rw [List.foldl_cons] at hp
    rcases ih (dedupeStep acc o) p hp with h | h
    · rcases dedupeStep_mem acc o p h with h2 | h2
      · exact Or.inl h2
      · exact Or.inr (by rw [h2]; exact List.mem_cons_self _ _)
    · exact Or.inr (List.mem_cons_of_mem _ h)

/-- Every deduplicated offer came from the input list. -/
theorem dedupe_subset (l : List OfferItem) : ∀ o ∈ dedupe l, o ∈ l := by
  intro o ho
  unfold dedupe at ho
  rcases List.mem_map.mp ho with ⟨p, hp, he⟩
  rcases foldl_dedupeStep_mem l [] p hp with h | h
  · simp at h
  · rw [← he]
    exact h

/-- Sorting permutes, so it preserves membership. -/
theorem mem_sortOffers {o : OfferItem} {l : List OfferItem} (h : o ∈ sortOffers l) : o ∈ l :=
  ((List.perm_insertionSort offerLe l).mem_iff).mp h

/-- C1 (amended).  A failure of the primary search is fatal to the whole
aggregation; a failure of the supplementary priority-source shopping search
is *equally* fatal whenever it runs (priority mode on, no costco source among
the normalized offers) — it does not degrade to a synthesized entry; a
fallback entry is appended only when the supplementary searches succeed and
produce a usable result — in particular, when the web search finds a
costco.com link but every price extraction fails, the appended entry is the
product-page link with null price; when the supplementary searches succeed
but the shopping scan finds nothing usable and the web search has no
costco.com result, the fallback yields nothing; and in that case the output
is just the deduplicated, sorted, truncated primary list, which contains no
offer whose source mentions costco — the priority source is simply absent. -/
theorem offers_priority_amended :
    (∀ (env : OffersEnv) (num : Int) (im : Bool) (e : PyErr),
      env.baseSearch = .error e → offers env num im = .error e)
    ∧ (∀ (env : OffersEnv) (num : Int) (e : PyErr) (d : Row) (vs : List PyVal)
        (offersList : List OfferItem),
      env.baseSearch = .ok d →
      getRows d "shopping_results".data = .ok vs →
      vs.mapM (fun v => (asRow v).bind buildOffer) = .ok offersList →
      hasCostcoSource offersList = false →
      env.costcoShopping = .error e →
      offers env num true = .error e)
    ∧ (∀ (num : Int) (url : Str), hasSub "costco.com".data url = true → pyStrip url ≠ [] →
      offers (envFallback url) num true = .ok [costcoEntry url])
    ∧ (∀ (env : OffersEnv) (raw : Row) (organic : List PyVal),
      costco_from_serpapi_shopping env = .ok none →
      env.costcoWeb = .ok raw →
      getRows raw "organic_results".data = .ok organic →
      findCostcoOrganic organic = .ok none →
      costco_fallback_offer env = .ok none)
    ∧ (∀ (env : OffersEnv) (num : Int) (d : Row) (vs : List PyVal)
        (offersList : List OfferItem),
      env.baseSearch = .ok d →
      getRows d "shopping_results".data = .ok vs →
      vs.mapM (fun v => (asRow v).bind buildOffer) = .ok offersList →
      hasCostcoSource offersList = false →
      costco_fallback_offer env = .ok none →
      offers env num true = .ok ((sortOffers (dedupe offersList)).take (truncCount num))
      ∧ ∀ o ∈ (sortOffers (dedupe offersList)).take (truncCount num),
          hasSub "costco".data (pyLowerStr (o.source.getD [])) = false) := by
  refine ⟨?_, ?_, ?_, ?_, ?_⟩
  · intro env num im e h
    unfold offers
    rw [h]
    rfl
  · intro env num e d vs offersList hb hg hm hc hcs
    unfold offers
    rw [hb]
    simp only [ok_bind]
    rw [hg]
    simp only [ok_bind]
    rw [hm]
    simp only [ok_bind]
    rw [if_pos ⟨trivial, hc⟩]
    unfold costco_fallback_offer costco_from_serpapi_shopping
    rw [hcs]
    rfl
  · intro num url hurl hstrip
    have hfind : findCostcoOrganic [.vdict [("link".data, .vstr url)]]
        = if hasSub "costco.com".data url = true then .ok (some [("link".data, .vstr url)])
          else .ok none := rfl
    have hfb : costco_fallback_offer (envFallback url) = .ok (some (costcoEntry url)) := by
      unfold costco_fallback_offer
      rw [show costco_from_serpapi_shopping (envFallback url) = .ok none from rfl]
      simp only [ok_bind]
      rw [show (envFallback url).costcoWeb
        = .ok [("organic_results".data, .vlist [.vdict [("link".data, .vstr url)]])] from rfl]
      simp only [ok_bind]
      rw [show getRows [("organic_results".data, .vlist [.vdict [("link".data, .vstr url)]])]
        "organic_results".data = .ok [.vdict [("link".data, .vstr url)]] from rfl]
      simp only [ok_bind]
      rw [hfind, if_pos hurl]
      simp only [ok_bind]
      rw [show extract_price_from_serpapi_organic_result [("link".data, .vstr url)]
        = none from rfl]
      rw [show rget [("link".data, .vstr url)] "link".data = some (.vstr url) from rfl]
      simp only []
      rw [if_pos hstrip]
      rfl
    unfold offers
    rw [show (envFallback url).baseSearch = .ok ([] : Row) from rfl]
    simp only [ok_bind]
    rw [show getRows ([] : Row) "shopping_results".data = .ok ([] : List PyVal) from rfl]
    simp only [ok_bind]
    rw [show (([] : List PyVal).mapM fun v => (asRow v).bind buildOffer)
      = Except.ok ([] : List OfferItem) from rfl]
    simp only [ok_bind]
    rw [if_pos ⟨trivial, rfl⟩]
    rw [hfb]
    simp only [Except.map, ok_bind]
    rw [show dedupe ([] ++ [costcoEntry url]) = [costcoEntry url] from rfl]
    rw [show sortOffers [costcoEntry url] = [costcoEntry url] from rfl]
    obtain ⟨m, hm⟩ : ∃ m, truncCount num = m + 1 := by
      have := truncCount_pos num
      exact ⟨truncCount num - 1, by omega⟩
    rw [hm]
    simp
  · intro env raw organic hs hw hg hf
    unfold costco_fallback_offer
    rw [hs]
    simp only [ok_bind]
    rw [hw]
    simp only [ok_bind]
    rw [hg]
    simp only [ok_bind]
    rw [hf]
    rfl
  · intro env num d vs offersList hb hg hm hc hfb
    constructor
    · unfold offers
      rw [hb]
      simp only [ok_bind]
      rw [hg]
      simp only [ok_bind]
      rw [hm]
      simp only [ok_bind]
      rw [if_pos ⟨trivial, hc⟩]
      rw [hfb]
      rfl
    · intro o ho
      have h1 : o ∈ sortOffers (dedupe offersList) := List.take_subset _ _ ho
      have h2 : o ∈ offersList := dedupe_subset _ o (mem_sortOffers h1)
      by_contra hcon
      rw [Bool.not_eq_false] at hcon
      have hct : hasCostcoSource offersList = true := by
        unfold hasCostcoSource
        rw [List.any_eq_true]
        exact ⟨o, h2, hcon⟩
      rw [hct] at hc
      exact absurd hc (by simp)

/-- A run in priority mode whose primary search returns one Amazon row,
whose supplementary shopping search succeeds finding nothing, and whose web
search succeeds with an organic result that is not a costco.com link. -/
def envNothing : OffersEnv :=
  { baseSearch := .ok [("shopping_results".data,
      .vlist [.vdict [("title".data, .vstr "Widget".data),
        ("source".data, .vstr "Amazon".data)]])],
    costcoShopping := .ok [],
    costcoWeb := .ok [("organic_results".data,
      .vlist [.vdict [("link".data, .vstr "https://example.com/w".data)]])],
    fetchPrice := (none, none) }

/-- The offer built from `envNothing`'s single primary row. -/
def widgetOffer : OfferItem :=
  { title := "Widget".data, source := some "Amazon".data }

/-- Witness for C1 (amended) at concrete inputs: the supplementary-failure
run returns the error; the usable-fallback run returns exactly the
null-price product-page entry; and the nothing-found run appends no entry —
its output is the lone Amazon offer, with no costco source in sight. -/
theorem offers_priority_amended_witness :
    offers envC1 7 true = .error (.err "SerpAPI request failed: 500".data)
    ∧ offers (envFallback "https://www.costco.com/p.html".data) 7 true
      = .ok [costcoEntry "https://www.costco.com/p.html".data]
    ∧ costco_fallback_offer envNothing = .ok none
    ∧ offers envNothing 7 true = .ok [widgetOffer]
    ∧ hasSub "costco".data (pyLowerStr (widgetOffer.source.getD [])) = false := by
  have h4 := offers_priority_amended.2.2.2.1 envNothing _ _ rfl rfl rfl rfl
  have h5 := offers_priority_amended.2.2.2.2 envNothing 7 _ _ [widgetOffer]
    rfl rfl rfl (by decide) h4
  refine ⟨?_, ?_, h4, ?_, ?_⟩
  · exact offers_priority_amended.2.1 envC1 7 (.err "SerpAPI request failed: 500".data)
      _ _ _ rfl rfl (by rfl) (by decide) rfl
  · exact offers_priority_amended.2.2.1 7 "https://www.costco.com/p.html".data
      (by decide) (by decide)
  · rw [h5.1]
    rfl
  · exact h5.2 widgetOffer (by decide)

/-! ## JSON values, serialization and parsing

The structured-text extraction of `routes_identify.py` / `gemini.py` works on
JSON text, so the stdlib `json` module is modelled here: a `Json` value type
(numbers as exact decimals `m / 10^s` — Python ints have scale 0 and floats
are idealized as the exact decimal values of their tokens — plus the
non-standard `NaN`/`Infinity` constants that `json` accepts and emits), a
serializer mirroring `json.dumps(..., ensure_ascii=False)` with its default
`", "` / `": "` separators and escape rules, and a recursive-descent parser
mirroring `json.loads` (strict: rejects raw control characters in strings,
requires the whole text to be one value; lone `\uXXXX` escapes decode to
single code points). -/

inductive Json where
  | null
  | bool (b : Bool)
  | num (m : Int) (s : Nat)
  | nan
  | infinity (neg : Bool)
  | str (s : Str)
  | arr (elems : List Json)
  | obj (fields : List (Str × Json))

/-- The four hex digits of a `\uXXXX` escape (lowercase, as `json.dumps`). -/
def hex4 (n : Nat) : Str :=
  [Nat.digitChar (n / 4096 % 16), Nat.digitChar (n / 256 % 16),
    Nat.digitChar (n / 16 % 16), Nat.digitChar (n % 16)]

/-- `json.dumps` escaping of one character (`ensure_ascii=False`): quote,
backslash, the five short escapes, `\u00XX` for other control characters,
everything else verbatim. -/
def escChar (c : Char) : Str :=
  if c = '"' then ['\\', '"']
  else if c = '\\' then ['\\', '\\']
  else if c = '\n' then ['\\', 'n']
  else if c = '\t' then ['\\', 't']
  else if c = '\r' then ['\\', 'r']
  else if c = '\x08' then ['\\', 'b']
  else if c = '\x0c' then ['\\', 'f']
  else if c.toNat < 32 then '\\' :: 'u' :: hex4 c.toNat
  else [c]

def escStr (s : Str) : Str :=
  s.flatMap escChar

/-- The digits of `|m|`, left-padded with zeros to at least `s + 1` places. -/
def paddedDigits (m : Int) (s : Nat) : Str :=
  List.replicate (s + 1 - (natChars m.natAbs).length) '0' ++ natChars m.natAbs

/-- Decimal rendering of the number `m / 10^s`: the plain integer for scale
0, otherwise the padded digits of `|m|` split `s` places from the right
(how `json.dumps` prints the floats in scope). -/
def numChars (m : Int) (s : Nat) : Str :=
  if s = 0 then intChars m
  else (if m < 0 then ['-'] else []) ++
    (paddedDigits m s).take ((paddedDigits m s).length - s)
    ++ '.' :: (paddedDigits m s).drop ((paddedDigits m s).length - s)

mutual

/-- `json.dumps(value, ensure_ascii=False)` with the default separators. -/
def serialize : Json → Str
  | .null => "null".data
  | .bool true => "true".data
  | .bool false => "false".data
  | .num m s => numChars m s
  | .nan => "NaN".data
  | .infinity true => "-Infinity".data
  | .infinity false => "Infinity".data
  | .str s => '"' :: escStr s ++ ['"']
  | .arr xs => '[' :: serializeElems xs ++ [']']
  | .obj fs => '{' :: serializeFields fs ++ ['}']

def serializeElems : List Json → Str
  | [] => []
  | [x] => serialize x
  | x :: y :: t => serialize x ++ ',' :: ' ' :: serializeElems (y :: t)

def serializeFields : List (Str × Json) → Str
  | [] => []
  | [p] => serializeKV p
  | p :: q :: t => serializeKV p ++ ',' :: ' ' :: serializeFields (q :: t)

def serializeKV : Str × Json → Str
  | (k, v) => '"' :: escStr k ++ '"' :: ':' :: ' ' :: serialize v

end

/-- JSON insignificant whitespace (`json.loads` skips exactly these). -/
def isJsonWs (c : Char) : Bool :=
  c = ' ' || c = '\t' || c = '\n' || c = '\r'

/-- Value of one hex digit character. -/
def hexVal (c : Char) : Option Nat :=
  if isDigitCh c then some (digitVal c)
  else if 'a' ≤ c ∧ c ≤ 'f' then some (c.toNat - 'a'.toNat + 10)
  else if 'A' ≤ c ∧ c ≤ 'F' then some (c.toNat - 'A'.toNat + 10)
  else none

/-- String-body parser (after the opening quote): content up to the closing
quote plus the rest; escapes decoded, raw control characters rejected. -/
def parseStrBody : Str → Option (Str × Str)
  | [] => none
  | c :: r =>
    if c = '"' then some ([], r)
    else if c = '\\' then
      match r with
      | [] => none
      | e :: r1 =>
        if e = '"' then (parseStrBody r1).map fun p => ('"' :: p.1, p.2)
        else if e = '\\' then (parseStrBody r1).map fun p => ('\\' :: p.1, p.2)
        else if e = '/' then (parseStrBody r1).map fun p => ('/' :: p.1, p.2)
        else if e = 'b' then (parseStrBody r1).map fun p => ('\x08' :: p.1, p.2)
        else if e = 'f' then (parseStrBody r1).map fun p => ('\x0c' :: p.1, p.2)
        else if e = 'n' then (parseStrBody r1).map fun p => ('\n' :: p.1, p.2)
        else if e = 'r' then (parseStrBody r1).map fun p => ('\r' :: p.1, p.2)
        else if e = 't' then (parseStrBody r1).map fun p => ('\t' :: p.1, p.2)
        else if e = 'u' then
          match r1 with
          | h1 :: h2 :: h3 :: h4 :: r2 =>
            match hexVal h1, hexVal h2, hexVal h3, hexVal h4 with
            | some a, some b, some c2, some d =>
              (parseStrBody r2).map fun p =>
                (Char.ofNat (4096 * a + 256 * b + 16 * c2 + d) :: p.1, p.2)
            | _, _, _, _ => none
          | _ => none
        else none
    else if c.toNat < 32 then none
    else (parseStrBody r).map fun p => (c :: p.1, p.2)

/-- A maximal nonempty digit run and the rest. -/
def digitRunTok (u : Str) : Option (Str × Str) :=
  if u.takeWhile isDigitCh = [] then none
  else some (u.takeWhile isDigitCh, u.dropWhile isDigitCh)

/-- The optional `(\.\d+)` group of the number token: mantissa extended by
the fraction digits, the scale (fraction length), and the rest; a `.` not
followed by a digit is left unconsumed (the group simply does not match). -/
def parseFracPart (m0 : Nat) (u : Str) : Nat × Nat × Str :=
  match u with
  | [] => (m0, 0, [])
  | c :: v =>
    if c = '.' then
      match digitRunTok v with
      | some p => (m0 * 10 ^ p.1.length + decDigitsVal p.1, p.1.length, p.2)
      | none => (m0, 0, c :: v)
    else (m0, 0, c :: v)

/-- The signed digits of the `([eE][-+]?\d+)` exponent group, after the
`e`. -/
def parseExpPart (u : Str) : Option (Int × Str) :=
  match u with
  | [] => none
  | c :: v =>
    if c = '+' then (digitRunTok v).map fun p => ((decDigitsVal p.1 : Int), p.2)
    else if c = '-' then (digitRunTok v).map fun p => (-(decDigitsVal p.1 : Int), p.2)
    else (digitRunTok (c :: v)).map fun p => ((decDigitsVal p.1 : Int), p.2)

/-- Applying an exponent to a mantissa/scale pair. -/
def applyExp (m : Int) (s : Nat) (e : Int) : Int × Nat :=
  if 0 ≤ e then (m * 10 ^ e.toNat, s) else (m, s + (-e).toNat)

/-- The optional `([eE][-+]?\d+)` group: shift the value when it matches,
leave the text unconsumed when it does not. -/
def parseExpOpt (m1 : Int) (s0 : Nat) (rest1 : Str) : (Int × Nat) × Str :=
  match rest1 with
  | [] => ((m1, s0), [])
  | c2 :: v2 =>
    if c2 = 'e' ∨ c2 = 'E' then
      match parseExpPart v2 with
      | some ep => (applyExp m1 s0 ep.1, ep.2)
      | none => ((m1, s0), c2 :: v2)
    else ((m1, s0), c2 :: v2)

/-- The JSON number token — `-?\d+(\.\d+)?([eE][-+]?\d+)?`, as matched by
the `json` module's NUMBER_RE — yielding the exact value as a mantissa and
decimal scale. -/
def parseNumTok (u : Str) : Option ((Int × Nat) × Str) :=
  match u with
  | [] => none
  | c :: t =>
    (if c = '-' then (digitRunTok t).map fun p => (true, p)
     else (digitRunTok (c :: t)).map fun p => (false, p)).bind fun sp =>
    match parseFracPart (decDigitsVal sp.2.1) sp.2.2 with
    | (m0, s0, rest1) =>
      some (parseExpOpt (if sp.1 = true then -(m0 : Int) else (m0 : Int)) s0 rest1)

mutual

/-- One JSON value (after skipping whitespace), fuel-bounded; `loads` passes
ample fuel. -/
def parseVal : Nat → Str → Option (Json × Str)
  | 0, _ => none
  | fuel + 1, s =>
    match s.dropWhile isJsonWs with
    | [] => none
    | c :: r =>
      if c = '{' then parseObjRest fuel (r.dropWhile isJsonWs)
      else if c = '[' then parseArrRest fuel (r.dropWhile isJsonWs)
      else if c = '"' then (parseStrBody r).map fun p => (Json.str p.1, p.2)
      else if startsW "true".data (c :: r) then some (Json.bool true, (c :: r).drop 4)
      else if startsW "false".data (c :: r) then some (Json.bool false, (c :: r).drop 5)
      else if startsW "null".data (c :: r) then some (Json.null, (c :: r).drop 4)
      else if startsW "NaN".data (c :: r) then some (Json.nan, (c :: r).drop 3)
      else if startsW "Infinity".data (c :: r) then some (Json.infinity false, (c :: r).drop 8)
      else if startsW "-Infinity".data (c :: r) then some (Json.infinity true, (c :: r).drop 9)
      else (parseNumTok (c :: r)).map fun p => (Json.num p.1.1 p.1.2, p.2)

/-- Object body after `{` and whitespace. -/
def parseObjRest : Nat → Str → Option (Json × Str)
  | 0, _ => none
  | fuel + 1, s =>
    match s with
    | [] => none
    | c :: r =>
      if c = '}' then some (Json.obj [], r)
      else (parseFields fuel (c :: r)).map fun p => (Json.obj p.1, p.2)

/-- One or more `"key": value` fields, starting at a key quote. -/
def parseFields : Nat → Str → Option (List (Str × Json) × Str)
  | 0, _ => none
  | fuel + 1, s =>
    match s with
    | [] => none
    | c :: r =>
      if c = '"' then
        (parseStrBody r).bind fun kp =>
        match kp.2.dropWhile isJsonWs with
        | [] => none
        | c2 :: r2 =>
          if c2 = ':' then
            (parseVal fuel r2).bind fun vp =>
            match vp.2.dropWhile isJsonWs with
            | [] => none
            | c3 :: r3 =>
              if c3 = ',' then
                (parseFields fuel (r3.dropWhile isJsonWs)).map fun fp =>
                  ((kp.1, vp.1) :: fp.1, fp.2)
              else if c3 = '}' then some ([(kp.1, vp.1)], r3)
              else none
          else none
      else none

/-- Array body after `[` and whitespace. -/
def parseArrRest : Nat → Str → Option (Json × Str)
  | 0, _ => none
  | fuel + 1, s =>
    match s with
    | [] => none
    | c :: r =>
      if c = ']' then some (Json.arr [], r)
      else (parseElems fuel (c :: r)).map fun p => (Json.arr p.1, p.2)

/-- One or more array elements. -/
def parseElems : Nat → Str → Option (List Json × Str)
  | 0, _ => none
  | fuel + 1, s =>
    (parseVal fuel s).bind fun vp =>
    match vp.2.dropWhile isJsonWs with
    | [] => none
    | c2 :: r2 =>
      if c2 = ',' then (parseElems fuel r2).map fun ep => (vp.1 :: ep.1, ep.2)
      else if c2 = ']' then some ([vp.1], r2)
      else none

end

/-- Embedding of `json.loads`: one complete value with only whitespace
around it. -/
def loads (s : Str) : Option Json :=
  match parseVal (3 * s.length + 3) s with
  | some (j, rest) => if rest.dropWhile isJsonWs = [] then some j else none
  | none => none

/-! ### Round-trip: the parser recovers every serialized value -/

theorem isDigit_digitChar : ∀ d, d < 10 → isDigitCh (Nat.digitChar d) = true := by decide

theorem digitVal_digitChar : ∀ d, d < 10 → digitVal (Nat.digitChar d) = d := by decide

theorem natChars_ne_nil (n : Nat) : natChars n ≠ [] := by
  rw [natChars]
  by_cases h : n < 10
  · simp [h]
  · simp [h]

theorem natChars_digits (n : Nat) : ∀ c ∈ natChars n, isDigitCh c = true := by
  induction n using Nat.strong_induction_on with
  | _ n ih =>
    rw [natChars]
    by_cases h : n < 10
    · rw [if_pos h]
      intro c hc
      rw [List.mem_singleton] at hc
      subst hc
      exact isDigit_digitChar n h
    · rw [if_neg h]
      intro c hc
      rcases List.mem_append.mp hc with hc | hc
      · exact ih (n / 10) (Nat.div_lt_self (by omega) (by omega)) c hc
      · rw [List.mem_singleton] at hc
        subst hc
        exact isDigit_digitChar _ (Nat.mod_lt _ (by omega))

theorem decDigitsVal_append_one (l : Str) (c : Char) :
    decDigitsVal (l ++ [c]) = 10 * decDigitsVal l + digitVal c := by
  unfold decDigitsVal
  rw [List.foldl_append]
  rfl

theorem natChars_val (n : Nat) : decDigitsVal (natChars n) = n := by
  induction n using Nat.strong_induction_on with
  | _ n ih =>
    rw [natChars]
    by_cases h : n < 10
    · rw [if_pos h]
      show 10 * 0 + digitVal (Nat.digitChar n) = n
      rw [digitVal_digitChar n h]
      omega
    · rw [if_neg h]
      rw [decDigitsVal_append_one, ih (n / 10) (Nat.div_lt_self (by omega) (by omega)),
        digitVal_digitChar _ (Nat.mod_lt _ (by omega))]
      omega

theorem digit_not_ws {c : Char} (h : isDigitCh c = true) : isJsonWs c = false := by
  by_contra hw
  rw [Bool.not_eq_false] at hw
  unfold isJsonWs at hw
  simp only [Bool.or_eq_true, decide_eq_true_eq] at hw
  rcases hw with ((e | e) | e) | e <;> (subst e; exact absurd h (by decide))

/-- `stopOk rest`: the serialized-value suffixes occurring inside larger
serializations (`,`, `}`, `]`, whitespace or end of input) — anything a
number token may be followed by without being extended. -/
def stopOk : Str → Bool
  | [] => true
  | c :: _ => !(isDigitCh c || c = '.' || c = 'e' || c = 'E')

theorem stopOk_spec {c : Char} {t : Str} (h : stopOk (c :: t) = true) :
    isDigitCh c = false ∧ ¬ c = '.' ∧ ¬ c = 'e' ∧ ¬ c = 'E' := by
  unfold stopOk at h
  simp only [Bool.not_eq_true', Bool.or_eq_false_iff, decide_eq_false_iff_not] at h
  tauto

theorem takeWhile_digits_all {l r : Str} (hl : ∀ c ∈ l, isDigitCh c = true)
    (hr : stopOk r = true) :
    (l ++ r).takeWhile isDigitCh = l ∧ (l ++ r).dropWhile isDigitCh = r := by
  refine takeWhile_all_append r hl ?_
  intro c hc
  cases r with
  | nil => simp at hc
  | cons c2 t =>
    simp only [List.head?_cons, Option.mem_def, Option.some.injEq] at hc
    subst hc
    unfold stopOk at hr
    simp only [Bool.not_eq_true', Bool.or_eq_false_iff] at hr
    tauto

theorem head_not_digit_of_stopOk {r : Str} (h : stopOk r = true) :
    ∀ c ∈ r.head?, isDigitCh c = false := by
  intro c hc
  cases r with
  | nil => simp at hc
  | cons c2 t =>
    simp only [List.head?_cons, Option.mem_def, Option.some.injEq] at hc
    subst hc
    exact (stopOk_spec h).1

theorem digitRunTok_append {l r : Str} (hne : l ≠ []) (hl : ∀ c ∈ l, isDigitCh c = true)
    (hr : ∀ c ∈ r.head?, isDigitCh c = false) :
    digitRunTok (l ++ r) = some (l, r) := by
  have h := takeWhile_all_append r hl hr
  unfold digitRunTok
  rw [h.1, h.2, if_neg hne]

theorem parseFracPart_stop (m0 : Nat) {rest : Str} (h : stopOk rest = true) :
    parseFracPart m0 rest = (m0, 0, rest) := by
  cases rest with
  | nil => rfl
  | cons c t =>
    have hs := stopOk_spec h
    show (if c = '.' then
        match digitRunTok t with
        | some p => (m0 * 10 ^ p.1.length + decDigitsVal p.1, p.1.length, p.2)
        | none => (m0, 0, c :: t)
      else (m0, 0, c :: t)) = (m0, 0, c :: t)
    rw [if_neg hs.2.1]

theorem parseExpOpt_stop (m1 : Int) (s0 : Nat) {rest : Str} (h : stopOk rest = true) :
    parseExpOpt m1 s0 rest = ((m1, s0), rest) := by
  cases rest with
  | nil => rfl
  | cons c t =>
    have hs := stopOk_spec h
    show (if c = 'e' ∨ c = 'E' then
        match parseExpPart t with
        | some ep => (applyExp m1 s0 ep.1, ep.2)
        | none => ((m1, s0), c :: t)
      else ((m1, s0), c :: t)) = ((m1, s0), c :: t)
    rw [if_neg ?hcond]
    case hcond =>
      rintro (e | e)
      · exact hs.2.2.1 e
      · exact hs.2.2.2 e

theorem decDigitsVal_foldl (acc : Nat) (l : Str) :
    l.foldl (fun a c => 10 * a + digitVal c) acc
      = acc * 10 ^ l.length + l.foldl (fun a c => 10 * a + digitVal c) 0 := by
  induction l generalizing acc with
  | nil => simp
  | cons c t ih =>
    rw [List.foldl_cons, List.foldl_cons, ih (10 * acc + digitVal c),
      ih (10 * 0 + digitVal c)]
    simp only [List.length_cons, pow_succ]
    ring

theorem decDigitsVal_append (a b : Str) :
    decDigitsVal (a ++ b) = decDigitsVal a * 10 ^ b.length + decDigitsVal b := by
  unfold decDigitsVal
  rw [List.foldl_append]
  exact decDigitsVal_foldl _ b

theorem decDigitsVal_replicate_zero (z : Nat) (l : Str) :
    decDigitsVal (List.replicate z '0' ++ l) = decDigitsVal l := by
  induction z with
  | zero => rfl
  | succ z ih =>
    rw [List.replicate_succ, List.cons_append]
    show (List.replicate z '0' ++ l).foldl (fun a c => 10 * a + digitVal c)
      (10 * 0 + digitVal '0') = _
    rw [show 10 * 0 + digitVal '0' = 0 from by decide]
    exact ih

theorem paddedDigits_digits (m : Int) (s : Nat) :
    ∀ c ∈ paddedDigits m s, isDigitCh c = true := by
  intro c hc
  unfold paddedDigits at hc
  rcases List.mem_append.mp hc with h | h
  · rw [List.eq_of_mem_replicate h]
    decide
  · exact natChars_digits _ c h

theorem paddedDigits_len (m : Int) (s : Nat) : s + 1 ≤ (paddedDigits m s).length := by
  unfold paddedDigits
  rw [List.length_append, List.length_replicate]
  omega

theorem paddedDigits_val (m : Int) (s : Nat) :
    decDigitsVal (paddedDigits m s) = m.natAbs := by
  unfold paddedDigits
  rw [decDigitsVal_replicate_zero]
  exact natChars_val _

theorem parseNumTok_numChars (m : Int) (s : Nat) (rest : Str) (hr : stopOk rest = true) :
    parseNumTok (numChars m s ++ rest) = some ((m, s), rest) := by
  have hrd := head_not_digit_of_stopOk hr
  by_cases hs : s = 0
  · subst hs
    rw [show numChars m 0 = intChars m from by unfold numChars; rw [if_pos rfl]]
    unfold intChars
    by_cases hm : m < 0
    · rw [if_pos hm, List.cons_append]
      show (if ('-' : Char) = '-' then
          (digitRunTok (natChars m.natAbs ++ rest)).map fun p => (true, p)
        else (digitRunTok ('-' :: (natChars m.natAbs ++ rest))).map fun p => (false, p)).bind
          (fun sp => match parseFracPart (decDigitsVal sp.2.1) sp.2.2 with
            | (m0, s0, rest1) =>
              some (parseExpOpt (if sp.1 = true then -(m0 : Int) else (m0 : Int)) s0 rest1))
        = some ((m, 0), rest)
      rw [if_pos rfl, digitRunTok_append (natChars_ne_nil _) (natChars_digits _) hrd]
      simp only [Option.map_some', Option.some_bind]
      rw [natChars_val, parseFracPart_stop _ hr]
      show some (parseExpOpt (-((m.natAbs : Nat) : Int)) 0 rest) = some ((m, 0), rest)
      have habs : -((m.natAbs : Nat) : Int) = m := by omega
      rw [parseExpOpt_stop _ _ hr, habs]
    · rw [if_neg hm]
      obtain ⟨d, t, hdt⟩ : ∃ d t, natChars m.natAbs = d :: t := by
        cases hh : natChars m.natAbs with
        | nil => exact absurd hh (natChars_ne_nil _)
        | cons d t => exact ⟨d, t, rfl⟩
      have hd : isDigitCh d = true := by
        have := natChars_digits m.natAbs
        rw [hdt] at this
        exact this d (List.mem_cons_self _ _)
      have hdm : ¬ d = '-' := by
        intro e
        rw [e] at hd
        exact absurd hd (by decide)
      rw [hdt, List.cons_append]
      show (if d = '-' then (digitRunTok (t ++ rest)).map fun p => (true, p)
        else (digitRunTok (d :: (t ++ rest))).map fun p => (false, p)).bind
          (fun sp => match parseFracPart (decDigitsVal sp.2.1) sp.2.2 with
            | (m0, s0, rest1) =>
              some (parseExpOpt (if sp.1 = true then -(m0 : Int) else (m0 : Int)) s0 rest1))
        = some ((m, 0), rest)
      rw [if_neg hdm, ← List.cons_append, ← hdt,
        digitRunTok_append (natChars_ne_nil _) (natChars_digits _) hrd]
      simp only [Option.map_some', Option.some_bind]
      rw [natChars_val, parseFracPart_stop _ hr]
      show some (parseExpOpt ((m.natAbs : Nat) : Int) 0 rest) = some ((m, 0), rest)
      have habs : ((m.natAbs : Nat) : Int) = m := by omega
      rw [parseExpOpt_stop _ _ hr, habs]
  · have hlen := paddedDigits_len m s
    have hdig := paddedDigits_digits m s
    have hval := paddedDigits_val m s
    set P := paddedDigits m s with hP
    set I := P.take (P.length - s) with hI
    set F := P.drop (P.length - s) with hF
    have hIF : I ++ F = P := List.take_append_drop _ _
    have hFlen : F.length = s := by
      rw [hF, List.length_drop]
      omega
    have hIlen : 1 ≤ I.length := by
      rw [hI, List.length_take]
      omega
    have hIne : I ≠ [] := by
      intro e
      rw [e] at hIlen
      simp at hIlen
    have hFne : F ≠ [] := by
      intro e
      rw [e] at hFlen
      simp at hFlen
      omega
    have hIdig : ∀ c ∈ I, isDigitCh c = true := fun c hc =>
      hdig c (List.take_subset _ _ hc)
    have hFdig : ∀ c ∈ F, isDigitCh c = true := fun c hc =>
      hdig c (List.drop_subset _ _ hc)
    have hsplit : decDigitsVal I * 10 ^ s + decDigitsVal F = m.natAbs := by
      rw [← hFlen, ← decDigitsVal_append, hIF, hval]
    have hnum : numChars m s ++ rest
        = (if m < 0 then ['-'] else []) ++ (I ++ '.' :: (F ++ rest)) := by
      unfold numChars
      rw [if_neg hs, ← hP, ← hI, ← hF]
      simp
    have hfr : parseFracPart (decDigitsVal I) ('.' :: (F ++ rest))
        = (decDigitsVal I * 10 ^ s + decDigitsVal F, s, rest) := by
      show (if ('.' : Char) = '.' then
          match digitRunTok (F ++ rest) with
          | some p => (decDigitsVal I * 10 ^ p.1.length + decDigitsVal p.1, p.1.length, p.2)
          | none => (decDigitsVal I, 0, '.' :: (F ++ rest))
        else (decDigitsVal I, 0, '.' :: (F ++ rest)))
        = (decDigitsVal I * 10 ^ s + decDigitsVal F, s, rest)
      rw [if_pos rfl, digitRunTok_append hFne hFdig hrd]
      show (decDigitsVal I * 10 ^ F.length + decDigitsVal F, F.length, rest)
        = (decDigitsVal I * 10 ^ s + decDigitsVal F, s, rest)
      rw [hFlen]
    have hdr : digitRunTok (I ++ '.' :: (F ++ rest)) = some (I, '.' :: (F ++ rest)) :=
      digitRunTok_append hIne hIdig (by intro c hc; simp at hc; subst hc; decide)
    rw [hnum]
    by_cases hm : m < 0
    · rw [if_pos hm, List.singleton_append]
      show (if ('-' : Char) = '-' then
          (digitRunTok (I ++ '.' :: (F ++ rest))).map fun p => (true, p)
        else (digitRunTok ('-' :: (I ++ '.' :: (F ++ rest)))).map fun p => (false, p)).bind
          (fun sp => match parseFracPart (decDigitsVal sp.2.1) sp.2.2 with
            | (m0, s0, rest1) =>
              some (parseExpOpt (if sp.1 = true then -(m0 : Int) else (m0 : Int)) s0 rest1))
        = some ((m, s), rest)
      rw [if_pos rfl, hdr]
      simp only [Option.map_some', Option.some_bind]
      rw [hfr]
      show some (parseExpOpt (-((decDigitsVal I * 10 ^ s + decDigitsVal F : Nat) : Int)) s rest)
        = some ((m, s), rest)
      rw [parseExpOpt_stop _ _ hr, hsplit]
      have habs : -((m.natAbs : Nat) : Int) = m := by omega
      rw [habs]
    · rw [if_neg hm, List.nil_append]
      obtain ⟨d, t, hdt⟩ : ∃ d t, I = d :: t := by
        cases hh : I with
        | nil => exact absurd hh hIne
        | cons d t => exact ⟨d, t, rfl⟩
      have hd : isDigitCh d = true := hIdig d (hdt ▸ List.mem_cons_self _ _)
      have hdm : ¬ d = '-' := by
        intro e
        rw [e] at hd
        exact absurd hd (by decide)
      rw [hdt, List.cons_append]
      show (if d = '-' then (digitRunTok (t ++ '.' :: (F ++ rest))).map fun p => (true, p)
        else (digitRunTok (d :: (t ++ '.' :: (F ++ rest)))).map fun p => (false, p)).bind
          (fun sp => match parseFracPart (decDigitsVal sp.2.1) sp.2.2 with
            | (m0, s0, rest1) =>
              some (parseExpOpt (if sp.1 = true then -(m0 : Int) else (m0 : Int)) s0 rest1))
        = some ((m, s), rest)
      rw [if_neg hdm, ← List.cons_append, ← hdt, hdr]
      simp only [Option.map_some', Option.some_bind]
      rw [hfr]
      show some (parseExpOpt ((decDigitsVal I * 10 ^ s + decDigitsVal F : Nat) : Int) s rest)
        = some ((m, s), rest)
      rw [parseExpOpt_stop _ _ hr, hsplit]
      have habs : ((m.natAbs : Nat) : Int) = m := by omega
      rw [habs]

theorem hexVal_digitChar : ∀ m, m < 16 → hexVal (Nat.digitChar m) = some m := by decide

theorem hex4_decode : ∀ n, n < 32 →
    4096 * (n / 4096 % 16) + 256 * (n / 256 % 16) + 16 * (n / 16 % 16) + n % 16 = n := by
  decide

theorem escStr_cons (c : Char) (s : Str) : escStr (c :: s) = escChar c ++ escStr s := by
  simp [escStr]

theorem parseStrBody_esc (s rest : Str) :
    parseStrBody (escStr s ++ '"' :: rest) = some (s, rest) := by
  induction s with
  | nil =>
    show parseStrBody ('"' :: rest) = some ([], rest)
    rw [parseStrBody.eq_def]
    simp
  | cons c s ih =>
    rw [escStr_cons, List.append_assoc]
    unfold escChar
    split_ifs with h1 h2 h3 h4 h5 h6 h7 h8
    · subst h1; rw [parseStrBody.eq_def]; simp [ih]
    · subst h2; rw [parseStrBody.eq_def]; simp [ih]
    · subst h3; rw [parseStrBody.eq_def]; simp [ih]
    · subst h4; rw [parseStrBody.eq_def]; simp [ih]
    · subst h5; rw [parseStrBody.eq_def]; simp [ih]
    · subst h6; rw [parseStrBody.eq_def]; simp [ih]
    · subst h7; rw [parseStrBody.eq_def]; simp [ih]
    · have ha := hexVal_digitChar (c.toNat / 4096 % 16) (Nat.mod_lt _ (by omega))
      have hb := hexVal_digitChar (c.toNat / 256 % 16) (Nat.mod_lt _ (by omega))
      have hc2 := hexVal_digitChar (c.toNat / 16 % 16) (Nat.mod_lt _ (by omega))
      have hd2 := hexVal_digitChar (c.toNat % 16) (Nat.mod_lt _ (by omega))
      have hdec := hex4_decode c.toNat h8
      simp only [hex4, List.cons_append, List.nil_append]
      rw [parseStrBody.eq_def]
      simp [ha, hb, hc2, hd2, ih, hdec, Char.ofNat_toNat]
    · rw [parseStrBody.eq_def]
      simp [h1, h2, h8, ih]

theorem startsW_false_of_head {p d : Char} (ps r : Str) (h : ¬ p = d) :
    startsW (p :: ps) (d :: r) = false := by
  unfold startsW
  rw [decide_eq_false h]
  simp

/-- The first character of a rendered number: a digit, or a minus sign
followed by a digit. -/
theorem numChars_head (m : Int) (s : Nat) :
    ∃ d t2, numChars m s = d :: t2
      ∧ (isDigitCh d = true
         ∨ (d = '-' ∧ ∃ d2 t3, t2 = d2 :: t3 ∧ isDigitCh d2 = true)) := by
  unfold numChars
  by_cases hs : s = 0
  · rw [if_pos hs]
    unfold intChars
    obtain ⟨d, t, hdt⟩ : ∃ d t, natChars m.natAbs = d :: t := by
      cases hh : natChars m.natAbs with
      | nil => exact absurd hh (natChars_ne_nil _)
      | cons d t => exact ⟨d, t, rfl⟩
    have hd : isDigitCh d = true := by
      have := natChars_digits m.natAbs
      rw [hdt] at this
      exact this d (List.mem_cons_self _ _)
    by_cases hm : m < 0
    · rw [if_pos hm, hdt]
      exact ⟨'-', d :: t, rfl, Or.inr ⟨rfl, d, t, rfl, hd⟩⟩
    · rw [if_neg hm, hdt]
      exact ⟨d, t, rfl, Or.inl hd⟩
  · rw [if_neg hs]
    have hlen := paddedDigits_len m s
    have hdig := paddedDigits_digits m s
    set P := paddedDigits m s with hP
    obtain ⟨d, t, hdt⟩ : ∃ d t, P.take (P.length - s) = d :: t := by
      cases hh : P.take (P.length - s) with
      | nil =>
        have : (P.take (P.length - s)).length = 0 := by rw [hh]; rfl
        rw [List.length_take] at this
        omega
      | cons d t => exact ⟨d, t, rfl⟩
    have hd : isDigitCh d = true :=
      hdig d (List.take_subset _ _ (hdt ▸ List.mem_cons_self _ _))
    by_cases hm : m < 0
    · rw [if_pos hm, hdt]
      refine ⟨'-', d :: (t ++ '.' :: P.drop (P.length - s)), by simp,
        Or.inr ⟨rfl, d, t ++ '.' :: P.drop (P.length - s), rfl, hd⟩⟩
    · rw [if_neg hm, hdt]
      exact ⟨d, t ++ '.' :: P.drop (P.length - s), by simp, Or.inl hd⟩

/-- Every serialized value starts with a character that is not whitespace and
not a closing bracket or brace. -/
theorem serialize_shape (j : Json) :
    ∃ c t2, serialize j = c :: t2 ∧ isJsonWs c = false ∧ c ≠ ']' ∧ c ≠ '}' ∧ c ≠ ',' := by
  match j with
  | .null => exact ⟨'n', _, rfl, by decide, by decide, by decide, by decide⟩
  | .bool true => exact ⟨'t', _, rfl, by decide, by decide, by decide, by decide⟩
  | .bool false => exact ⟨'f', _, rfl, by decide, by decide, by decide, by decide⟩
  | .nan => exact ⟨'N', _, rfl, by decide, by decide, by decide, by decide⟩
  | .infinity true => exact ⟨'-', _, rfl, by decide, by decide, by decide, by decide⟩
  | .infinity false => exact ⟨'I', _, rfl, by decide, by decide, by decide, by decide⟩
  | .str s => exact ⟨'"', _, rfl, by decide, by decide, by decide, by decide⟩
  | .arr xs => exact ⟨'[', _, rfl, by decide, by decide, by decide, by decide⟩
  | .obj fs => exact ⟨'\x7b', _, rfl, by decide, by decide, by decide, by decide⟩
  | .num m s =>
    obtain ⟨d, t2, hdt, hcl⟩ := numChars_head m s
    refine ⟨d, t2, hdt, ?_, ?_, ?_, ?_⟩ <;>
      (rcases hcl with hd | ⟨hdm, -⟩
       · first
         | exact digit_not_ws hd
         | (intro e; rw [e] at hd; exact absurd hd (by decide))
       · subst hdm
         decide)

theorem serFields_shape {fs : List (Str × Json)} (h : fs ≠ []) :
    ∃ t2, serializeFields fs = '"' :: t2 := by
  match fs with
  | [p] =>
    obtain ⟨k, v⟩ := p
    exact ⟨_, rfl⟩
  | p :: q :: t =>
    obtain ⟨k, v⟩ := p
    exact ⟨_, rfl⟩

theorem parseVal_ws : ∀ (f : Nat) (c : Char) (X : Str), isJsonWs c = true →
    parseVal f (c :: X) = parseVal f X := by
  intro f c X h
  cases f with
  | zero => rfl
  | succ f =>
    rw [parseVal.eq_def, parseVal.eq_def]
    simp only []
    rw [show (c :: X).dropWhile isJsonWs = X.dropWhile isJsonWs from by
      rw [List.dropWhile_cons_of_pos h]]

theorem parseVal_cons (f : Nat) (c : Char) (r : Str) (hws : isJsonWs c = false) :
    parseVal (f + 1) (c :: r)
      = (if c = '{' then parseObjRest f (r.dropWhile isJsonWs)
        else if c = '[' then parseArrRest f (r.dropWhile isJsonWs)
        else if c = '"' then (parseStrBody r).map fun p => (Json.str p.1, p.2)
        else if startsW "true".data (c :: r) then some (Json.bool true, (c :: r).drop 4)
        else if startsW "false".data (c :: r) then some (Json.bool false, (c :: r).drop 5)
        else if startsW "null".data (c :: r) then some (Json.null, (c :: r).drop 4)
        else if startsW "NaN".data (c :: r) then some (Json.nan, (c :: r).drop 3)
        else if startsW "Infinity".data (c :: r) then
          some (Json.infinity false, (c :: r).drop 8)
        else if startsW "-Infinity".data (c :: r) then
          some (Json.infinity true, (c :: r).drop 9)
        else (parseNumTok (c :: r)).map fun p => (Json.num p.1.1 p.1.2, p.2)) := by
  rw [parseVal.eq_def]
  simp only []
  rw [show (c :: r).dropWhile isJsonWs = c :: r from List.dropWhile_cons_of_neg (by simp [hws])]

theorem parseObjRest_cons (f : Nat) (c : Char) (r : Str) :
    parseObjRest (f + 1) (c :: r)
      = if c = '}' then some (Json.obj [], r)
        else (parseFields f (c :: r)).map fun p => (Json.obj p.1, p.2) := rfl

theorem parseArrRest_cons (f : Nat) (c : Char) (r : Str) :
    parseArrRest (f + 1) (c :: r)
      = if c = ']' then some (Json.arr [], r)
        else (parseElems f (c :: r)).map fun p => (Json.arr p.1, p.2) := rfl

theorem parseFields_cons (f : Nat) (c : Char) (r : Str) :
    parseFields (f + 1) (c :: r)
      = if c = '"' then
          (parseStrBody r).bind fun kp =>
          match kp.2.dropWhile isJsonWs with
          | [] => none
          | c2 :: r2 =>
            if c2 = ':' then
              (parseVal f r2).bind fun vp =>
              match vp.2.dropWhile isJsonWs with
              | [] => none
              | c3 :: r3 =>
                if c3 = ',' then
                  (parseFields f (r3.dropWhile isJsonWs)).map fun fp =>
                    ((kp.1, vp.1) :: fp.1, fp.2)
                else if c3 = '}' then some ([(kp.1, vp.1)], r3)
                else none
            else none
        else none := rfl

theorem parseElems_succ (f : Nat) (s : Str) :
    parseElems (f + 1) s
      = (parseVal f s).bind fun vp =>
        match vp.2.dropWhile isJsonWs with
        | [] => none
        | c2 :: r2 =>
          if c2 = ',' then (parseElems f r2).map fun ep => (vp.1 :: ep.1, ep.2)
          else if c2 = ']' then some ([vp.1], r2)
          else none := rfl


theorem stopOk_rbrace (r : Str) : stopOk ('}' :: r) = true := rfl

theorem stopOk_rbracket (r : Str) : stopOk (']' :: r) = true := rfl

theorem stopOk_comma (r : Str) : stopOk (',' :: r) = true := rfl

theorem parseElems_ws (f : Nat) (c : Char) (X : Str) (h : isJsonWs c = true) :
    parseElems f (c :: X) = parseElems f X := by
  cases f with
  | zero => rfl
  | succ f => rw [parseElems_succ, parseElems_succ, parseVal_ws f c X h]

theorem serializeKV_len (k : Str) (v : Json) :
    (serializeKV (k, v)).length = (escStr k).length + (serialize v).length + 4 := by
  simp only [serializeKV, List.length_cons, List.length_append]
  omega

theorem serializeFields_len2 (p q : Str × Json) (t : List (Str × Json)) :
    (serializeFields (p :: q :: t)).length
      = (serializeKV p).length + 2 + (serializeFields (q :: t)).length := by
  rw [show serializeFields (p :: q :: t)
      = serializeKV p ++ ',' :: ' ' :: serializeFields (q :: t) from rfl]
  simp only [List.length_append, List.length_cons]
  omega

theorem serializeElems_len2 (x y : Json) (t : List Json) :
    (serializeElems (x :: y :: t)).length
      = (serialize x).length + 2 + (serializeElems (y :: t)).length := by
  rw [show serializeElems (x :: y :: t)
      = serialize x ++ ',' :: ' ' :: serializeElems (y :: t) from rfl]
  simp only [List.length_append, List.length_cons]
  omega

theorem serialize_obj_len (fs : List (Str × Json)) :
    (serialize (Json.obj fs)).length = (serializeFields fs).length + 2 := by
  rw [show serialize (Json.obj fs) = '{' :: serializeFields fs ++ ['}'] from rfl]
  simp only [List.length_cons, List.length_append, List.length_nil]

theorem serialize_arr_len (xs : List Json) :
    (serialize (Json.arr xs)).length = (serializeElems xs).length + 2 := by
  rw [show serialize (Json.arr xs) = '[' :: serializeElems xs ++ [']'] from rfl]
  simp only [List.length_cons, List.length_append, List.length_nil]

theorem serialize_pos (j : Json) : 1 ≤ (serialize j).length := by
  obtain ⟨c, t2, h, -, -, -, -⟩ := serialize_shape j
  rw [h, List.length_cons]
  omega

theorem serElems_shape {xs : List Json} (h : xs ≠ []) :
    ∃ c t3, serializeElems xs = c :: t3 ∧ isJsonWs c = false ∧ ¬ c = ']' := by
  match xs with
  | [x] =>
    obtain ⟨c, t2, he, hw, hbr, -, -⟩ := serialize_shape x
    exact ⟨c, t2, he, hw, hbr⟩
  | x :: y :: t =>
    obtain ⟨c, t2, he, hw, hbr, -, -⟩ := serialize_shape x
    refine ⟨c, t2 ++ ',' :: ' ' :: serializeElems (y :: t), ?_, hw, hbr⟩
    rw [show serializeElems (x :: y :: t)
        = serialize x ++ ',' :: ' ' :: serializeElems (y :: t) from rfl, he, List.cons_append]

theorem num_head (m : Int) (s : Nat) : ∃ d t2, serialize (Json.num m s) = d :: t2 ∧
    isJsonWs d = false ∧ ¬ d = '{' ∧ ¬ d = '[' ∧ ¬ d = '"' ∧ ¬ d = 't' ∧ ¬ d = 'f'
    ∧ ¬ d = 'n' ∧ ¬ d = 'N' ∧ ¬ d = 'I'
    ∧ ∀ r2 : Str, startsW "-Infinity".data (d :: (t2 ++ r2)) = false := by
  obtain ⟨d, t2, hdt, hcl⟩ := numChars_head m s
  have hser : serialize (Json.num m s) = d :: t2 := hdt
  rcases hcl with hd | ⟨hdm, d2, t3, ht3, hd2⟩
  · refine ⟨d, t2, hser, digit_not_ws hd, ?_, ?_, ?_, ?_, ?_, ?_, ?_, ?_, ?_⟩
    case _ => intro e; rw [e] at hd; exact absurd hd (by decide)
    case _ => intro e; rw [e] at hd; exact absurd hd (by decide)
    case _ => intro e; rw [e] at hd; exact absurd hd (by decide)
    case _ => intro e; rw [e] at hd; exact absurd hd (by decide)
    case _ => intro e; rw [e] at hd; exact absurd hd (by decide)
    case _ => intro e; rw [e] at hd; exact absurd hd (by decide)
    case _ => intro e; rw [e] at hd; exact absurd hd (by decide)
    case _ => intro e; rw [e] at hd; exact absurd hd (by decide)
    case _ =>
      intro r2
      exact startsW_false_of_head _ _ (fun e => by rw [← e] at hd; exact absurd hd (by decide))
  · subst hdm
    refine ⟨'-', t2, hser, by decide, by decide, by decide, by decide, by decide,
      by decide, by decide, by decide, by decide, ?_⟩
    intro r2
    rw [ht3, List.cons_append]
    show (decide (('-' : Char) = '-') && startsW "Infinity".data (d2 :: (t3 ++ r2))) = false
    rw [startsW_false_of_head _ _ (fun e => by rw [← e] at hd2; exact absurd hd2 (by decide))]
    simp

mutual

/-- The parser recovers every serialized value, given enough fuel and a
stopper-safe remainder. -/
theorem parseVal_complete (j : Json) (rest : Str) (fuel : Nat)
    (hfuel : 3 * (serialize j).length < fuel) (hrest : stopOk rest = true) :
    parseVal fuel (serialize j ++ rest) = some (j, rest) := by
  match j with
  | .null =>
    cases fuel with
    | zero => omega
    | succ f =>
      show parseVal (f + 1) ('n' :: ('u' :: 'l' :: 'l' :: rest)) = some (Json.null, rest)
      rw [parseVal_cons f 'n' _ (by decide)]
      simp [startsW]
  | .bool true =>
    cases fuel with
    | zero => omega
    | succ f =>
      show parseVal (f + 1) ('t' :: ('r' :: 'u' :: 'e' :: rest)) = some (Json.bool true, rest)
      rw [parseVal_cons f 't' _ (by decide)]
      simp [startsW]
  | .bool false =>
    cases fuel with
    | zero => omega
    | succ f =>
      show parseVal (f + 1) ('f' :: ('a' :: 'l' :: 's' :: 'e' :: rest))
        = some (Json.bool false, rest)
      rw [parseVal_cons f 'f' _ (by decide)]
      simp [startsW]
  | .num m s =>
    cases fuel with
    | zero => omega
    | succ f =>
      obtain ⟨d, t2, hdt, hw, h1, h2, h3, h4, h5, h6, h7, h8, h9⟩ := num_head m s
      have hT : startsW "true".data (d :: (t2 ++ rest)) = false :=
        startsW_false_of_head _ _ (fun e => h4 e.symm)
      have hF : startsW "false".data (d :: (t2 ++ rest)) = false :=
        startsW_false_of_head _ _ (fun e => h5 e.symm)
      have hN : startsW "null".data (d :: (t2 ++ rest)) = false :=
        startsW_false_of_head _ _ (fun e => h6 e.symm)
      have hNa : startsW "NaN".data (d :: (t2 ++ rest)) = false :=
        startsW_false_of_head _ _ (fun e => h7 e.symm)
      have hI : startsW "Infinity".data (d :: (t2 ++ rest)) = false :=
        startsW_false_of_head _ _ (fun e => h8 e.symm)
      have hMI := h9 rest
      rw [hdt, List.cons_append, parseVal_cons f d _ hw,
        if_neg h1, if_neg h2, if_neg h3]
      rw [hT, hF, hN, hNa, hI, hMI]
      simp only [Bool.false_eq_true, if_false]
      rw [← List.cons_append, ← hdt,
        show serialize (Json.num m s) = numChars m s from rfl,
        parseNumTok_numChars m s rest hrest]
      rfl
  | .nan =>
    cases fuel with
    | zero => omega
    | succ f =>
      show parseVal (f + 1) ('N' :: ('a' :: 'N' :: rest)) = some (Json.nan, rest)
      rw [parseVal_cons f 'N' _ (by decide)]
      simp [startsW]
  | .infinity false =>
    cases fuel with
    | zero => omega
    | succ f =>
      show parseVal (f + 1)
          ('I' :: ('n' :: 'f' :: 'i' :: 'n' :: 'i' :: 't' :: 'y' :: rest))
        = some (Json.infinity false, rest)
      rw [parseVal_cons f 'I' _ (by decide)]
      simp [startsW]
  | .infinity true =>
    cases fuel with
    | zero => omega
    | succ f =>
      show parseVal (f + 1)
          ('-' :: ('I' :: 'n' :: 'f' :: 'i' :: 'n' :: 'i' :: 't' :: 'y' :: rest))
        = some (Json.infinity true, rest)
      rw [parseVal_cons f '-' _ (by decide)]
      simp [startsW]
  | .str s =>
    cases fuel with
    | zero => omega
    | succ f =>
      have he : serialize (Json.str s) ++ rest = '"' :: (escStr s ++ '"' :: rest) := by
        simp [serialize]
      rw [he, parseVal_cons f '"' _ (by decide),
        if_neg (by decide), if_neg (by decide), if_pos rfl, parseStrBody_esc]
      rfl
  | .arr xs =>
    have hL := serialize_arr_len xs
    cases xs with
    | nil =>
      rw [hL] at hfuel
      cases fuel with
      | zero => omega
      | succ f =>
        cases f with
        | zero => omega
        | succ f2 =>
          show parseVal (f2 + 1 + 1) ('[' :: (']' :: rest)) = some (Json.arr [], rest)
          rw [parseVal_cons (f2 + 1) '[' _ (by decide), if_neg (by decide), if_pos rfl,
            show (']' :: rest).dropWhile isJsonWs = ']' :: rest from
              List.dropWhile_cons_of_neg (by decide),
            parseArrRest_cons f2 ']' rest, if_pos rfl]
    | cons x t =>
      rw [hL] at hfuel
      cases fuel with
      | zero => omega
      | succ f =>
        cases f with
        | zero => omega
        | succ f2 =>
          obtain ⟨c, t3, he, hw, hbr⟩ := serElems_shape (List.cons_ne_nil x t)
          have hin : serialize (Json.arr (x :: t)) ++ rest
              = '[' :: (serializeElems (x :: t) ++ ']' :: rest) := by
            simp [serialize]
          rw [hin, parseVal_cons (f2 + 1) '[' _ (by decide), if_neg (by decide), if_pos rfl,
            he, List.cons_append, List.dropWhile_cons_of_neg (by simp [hw]),
            parseArrRest_cons f2 c _, if_neg hbr, ← List.cons_append, ← he,
            parseElems_complete (x :: t) rest f2 (List.cons_ne_nil x t) (by omega)]
          rfl
  | .obj fs =>
    have hL := serialize_obj_len fs
    cases fs with
    | nil =>
      rw [hL] at hfuel
      cases fuel with
      | zero => omega
      | succ f =>
        cases f with
        | zero => omega
        | succ f2 =>
          show parseVal (f2 + 1 + 1) ('{' :: ('}' :: rest)) = some (Json.obj [], rest)
          rw [parseVal_cons (f2 + 1) '{' _ (by decide), if_pos rfl,
            show ('}' :: rest).dropWhile isJsonWs = '}' :: rest from
              List.dropWhile_cons_of_neg (by decide),
            parseObjRest_cons f2 '}' rest, if_pos rfl]
    | cons p t =>
      rw [hL] at hfuel
      cases fuel with
      | zero => omega
      | succ f =>
        cases f with
        | zero => omega
        | succ f2 =>
          obtain ⟨t4, he⟩ := serFields_shape (List.cons_ne_nil p t)
          have hin : serialize (Json.obj (p :: t)) ++ rest
              = '{' :: (serializeFields (p :: t) ++ '}' :: rest) := by
            simp [serialize]
          rw [hin, parseVal_cons (f2 + 1) '{' _ (by decide), if_pos rfl,
            he, List.cons_append, List.dropWhile_cons_of_neg (by decide),
            parseObjRest_cons f2 '"' _, if_neg (by decide), ← List.cons_append, ← he,
            parseFields_complete (p :: t) rest f2 (List.cons_ne_nil p t) (by omega)]
          rfl

/-- The field parser recovers every serialized non-empty field list followed
by a closing brace. -/
theorem parseFields_complete (fs : List (Str × Json)) (rest : Str) (fuel : Nat)
    (hne : fs ≠ []) (hfuel : 3 * (serializeFields fs).length + 3 < fuel) :
    parseFields fuel (serializeFields fs ++ '}' :: rest) = some (fs, rest) := by
  match fs with
  | [] => exact absurd rfl hne
  | (k, v) :: t =>
    have hKV := serializeKV_len k v
    cases fuel with
    | zero => omega
    | succ f =>
      cases t with
      | nil =>
        have hF1 : (serializeFields [(k, v)]).length = (serializeKV (k, v)).length := rfl
        have he : serializeFields [(k, v)] ++ '}' :: rest
            = '"' :: (escStr k ++ '"' :: (':' :: ' ' :: (serialize v ++ '}' :: rest))) := by
          simp [serializeFields, serializeKV]
        have hv := parseVal_complete v ('}' :: rest) f (by omega) (stopOk_rbrace rest)
        have hws := parseVal_ws f ' ' (serialize v ++ '}' :: rest) (by decide)
        rw [he, parseFields_cons, if_pos rfl, parseStrBody_esc]
        simp [List.dropWhile_cons, isJsonWs, hws, hv]
      | cons q t2 =>
        have hF2 := serializeFields_len2 (k, v) q t2
        have he : serializeFields ((k, v) :: q :: t2) ++ '}' :: rest
            = '"' :: (escStr k ++ '"' :: (':' :: ' ' ::
                (serialize v ++ ',' :: ' ' :: (serializeFields (q :: t2) ++ '}' :: rest)))) := by
          simp [serializeFields, serializeKV]
        have hv := parseVal_complete v
          (',' :: ' ' :: (serializeFields (q :: t2) ++ '}' :: rest)) f (by omega)
          (stopOk_comma _)
        have hws := parseVal_ws f ' '
          (serialize v ++ ',' :: ' ' :: (serializeFields (q :: t2) ++ '}' :: rest)) (by decide)
        obtain ⟨t4, hf4⟩ := serFields_shape (List.cons_ne_nil q t2)
        have hdw : (serializeFields (q :: t2) ++ '}' :: rest).dropWhile isJsonWs
            = serializeFields (q :: t2) ++ '}' :: rest := by
          rw [hf4, List.cons_append, List.dropWhile_cons_of_neg (by decide)]
        have hrec := parseFields_complete (q :: t2) rest f (List.cons_ne_nil q t2) (by omega)
        rw [he, parseFields_cons, if_pos rfl, parseStrBody_esc]
        simp [List.dropWhile_cons, isJsonWs, hws, hv, hdw, hrec]

/-- The element parser recovers every serialized non-empty element list
followed by a closing bracket. -/
theorem parseElems_complete (xs : List Json) (rest : Str) (fuel : Nat)
    (hne : xs ≠ []) (hfuel : 3 * (serializeElems xs).length + 3 < fuel) :
    parseElems fuel (serializeElems xs ++ ']' :: rest) = some (xs, rest) := by
  match xs with
  | [] => exact absurd rfl hne
  | x :: t =>
    cases fuel with
    | zero => omega
    | succ f =>
      cases t with
      | nil =>
        have hE1 : (serializeElems [x]).length = (serialize x).length := rfl
        have hv := parseVal_complete x (']' :: rest) f (by omega) (stopOk_rbracket rest)
        rw [show serializeElems [x] ++ ']' :: rest = serialize x ++ ']' :: rest from rfl,
          parseElems_succ, hv]
        simp [List.dropWhile_cons, isJsonWs]
      | cons y t2 =>
        have hE2 := serializeElems_len2 x y t2
        have he : serializeElems (x :: y :: t2) ++ ']' :: rest
            = serialize x ++ ',' :: ' ' :: (serializeElems (y :: t2) ++ ']' :: rest) := by
          simp [serializeElems]
        have hv := parseVal_complete x
          (',' :: ' ' :: (serializeElems (y :: t2) ++ ']' :: rest)) f (by omega)
          (stopOk_comma _)
        have hwsE := parseElems_ws f ' ' (serializeElems (y :: t2) ++ ']' :: rest) (by decide)
        have hrec := parseElems_complete (y :: t2) rest f (List.cons_ne_nil y t2) (by omega)
        rw [he, parseElems_succ, hv]
        simp [List.dropWhile_cons, isJsonWs, hwsE, hrec]

end

theorem loads_serialize (j : Json) : loads (serialize j) = some j := by
  unfold loads
  have h := parseVal_complete j [] (3 * (serialize j).length + 3) (by omega) rfl
  rw [List.append_nil] at h
  rw [h]
  rfl

/-! ## JSON extraction from model output (`extract_json`,
`_extract_json_best_effort`) -/

/-- The backtick character (code fences). -/
def backquote : Char := Char.ofNat 96

/-- Whether the text starts with the case-insensitive fence head
(the literal part of `` ```json `` in the fenced-block regex). -/
def fenceHead (s : Str) : Bool :=
  match s with
  | c0 :: c1 :: c2 :: c3 :: c4 :: c5 :: c6 :: _ =>
    c0 = backquote && c1 = backquote && c2 = backquote &&
    (c3 = 'j' || c3 = 'J') && (c4 = 's' || c4 = 'S') &&
    (c5 = 'o' || c5 = 'O') && (c6 = 'n' || c6 = 'N')
  | _ => false

/-- The `\s*``` ` part after the captured block: whitespace, then three
backticks. -/
def closeOk (s : Str) : Bool :=
  startsW [backquote, backquote, backquote] (s.dropWhile pyIsSpace)

/-- The lazy `.*?\x7d` of the fenced pattern: the body up to and including the
first `\x7d` whose remainder closes the fence. -/
def scanClose : Str → Option Str
  | [] => none
  | c :: t =>
    if c = '}' ∧ closeOk t = true then some ['}']
    else (scanClose t).map fun b => c :: b

/-- The `\s*(\x7b.*?\x7d)` part after the fence head. -/
def tryCapture (r : Str) : Option Str :=
  match r.dropWhile pyIsSpace with
  | [] => none
  | c :: t2 => if c = '{' then (scanClose t2).map fun b => '{' :: b else none

/-- `re.search` of the fenced pattern: the leftmost fence head with a
completable capture. -/
def fencedSearch : Str → Option Str
  | [] => none
  | c :: t =>
    if fenceHead (c :: t) then
      match tryCapture ((c :: t).drop 7) with
      | some cap => some cap
      | none => fencedSearch t
    else fencedSearch t

/-- The lazy `\x7b.*?\x7d`: the body up to the first `\x7d`, plus the rest of
the text. -/
def scanToClose : Str → Option (Str × Str)
  | [] => none
  | c :: t =>
    if c = '}' then some (['}'], t)
    else (scanToClose t).map fun p => (c :: p.1, p.2)

/-- `re.findall(r"\x7b.*?\x7d", text, re.DOTALL)`: successive non-overlapping
minimal brace spans, with a fuel of one unit per scanned character. -/
def nonGreedyBlocksF : Nat → Str → List Str
  | 0, _ => []
  | _ + 1, [] => []
  | fuel + 1, c :: t =>
    if c = '{' then
      match scanToClose t with
      | some (b, r) => ('{' :: b) :: nonGreedyBlocksF fuel r
      | none => []
    else nonGreedyBlocksF fuel t

def nonGreedyBlocks (s : Str) : List Str :=
  nonGreedyBlocksF s.length s

/-- The `for b in blocks: try: return json.loads(b.strip())` loop. -/
def firstParsedBlock : List Str → Option Json
  | [] => none
  | b :: bs =>
    match loads (pyStrip b) with
    | some j => some j
    | none => firstParsedBlock bs

/-- `re.search(r"\x7b.*\x7d", text, re.DOTALL)`: the first `\x7b` through the
last `\x7d`. -/
def greedySpan (s : Str) : Option Str :=
  match s.dropWhile (fun c => !(c = '{')) with
  | [] => none
  | c :: t =>
    match (t.reverse.dropWhile fun c2 => !(c2 = '}')).reverse with
    | [] => none
    | body => some (c :: body)

/-- How extraction fails: `ValueError("No JSON object found in model output")`
or a `json.JSONDecodeError` escaping from an unguarded `json.loads`. -/
inductive ExtractErr where
  | noJson
  | decodeErr
deriving DecidableEq

/-- Embedding of `extract_json` (routes_identify.py) and the identical
`_extract_json_best_effort` (gemini.py): fenced block first (unguarded
parse of the stripped capture), then each non-greedy block (guarded), then
the greedy span (unguarded). -/
def extract_json (text : Str) : Except ExtractErr Json :=
  match fencedSearch text with
  | some cap =>
    match loads (pyStrip cap) with
    | some j => Except.ok j
    | none => Except.error ExtractErr.decodeErr
  | none =>
    match firstParsedBlock (nonGreedyBlocks text) with
    | some j => Except.ok j
    | none =>
      match greedySpan text with
      | none => Except.error ExtractErr.noJson
      | some g =>
        match loads g with
        | some j => Except.ok j
        | none => Except.error ExtractErr.decodeErr

/-- Lines 305–314 of `identify_from_image`: strict `json.loads` first, then
the best-effort extraction. -/
def extractStructured (text : Str) : Except ExtractErr Json :=
  match loads text with
  | some j => Except.ok j
  | none => extract_json text

theorem tryCapture_none {r : Str} (h : ∀ c ∈ r, ¬ c = '{') : tryCapture r = none := by
  unfold tryCapture
  cases hdw : r.dropWhile pyIsSpace with
  | nil => rfl
  | cons c2 t2 =>
    have hc2 : c2 ∈ r :=
      (List.dropWhile_sublist pyIsSpace).subset (hdw ▸ List.mem_cons_self c2 t2)
    show (if c2 = '{' then (scanClose t2).map (fun b => '{' :: b) else none) = none
    rw [if_neg (h c2 hc2)]

theorem fencedSearch_none_of_no_brace : ∀ (t : Str), (∀ c ∈ t, ¬ c = '{') →
    fencedSearch t = none := by
  intro t
  induction t with
  | nil => intro h; rfl
  | cons c t ih =>
    intro h
    have ht : ∀ c2 ∈ t, ¬ c2 = '{' := fun c2 hc2 => h c2 (List.mem_cons_of_mem _ hc2)
    unfold fencedSearch
    by_cases hf : fenceHead (c :: t) = true
    · rw [if_pos hf]
      rw [tryCapture_none (fun c2 hc2 => h c2 (List.drop_subset 7 (c :: t) hc2))]
      exact ih ht
    · rw [if_neg hf]
      exact ih ht

theorem nonGreedyBlocksF_no_brace : ∀ (fuel : Nat) (t : Str), (∀ c ∈ t, ¬ c = '{') →
    nonGreedyBlocksF fuel t = [] := by
  intro fuel
  induction fuel with
  | zero => intro t h; rfl
  | succ f ih =>
    intro t h
    cases t with
    | nil => rfl
    | cons c t =>
      rw [show nonGreedyBlocksF (f + 1) (c :: t)
          = if c = '{' then
              (match scanToClose t with
               | some (b, r) => ('{' :: b) :: nonGreedyBlocksF f r
               | none => [])
            else nonGreedyBlocksF f t from rfl]
      rw [if_neg (h c (List.mem_cons_self _ _))]
      exact ih t (fun c2 hc2 => h c2 (List.mem_cons_of_mem _ hc2))

theorem greedySpan_none {s : Str} (h : ∀ c ∈ s, ¬ c = '{') : greedySpan s = none := by
  unfold greedySpan
  rw [List.dropWhile_eq_nil_iff.mpr (fun x hx => by simp [h x hx])]

theorem closeOk_false_of_no_bq (b suffix : Str) (hb : ∀ c ∈ b, ¬ c = backquote) :
    closeOk (b ++ '}' :: suffix) = false := by
  induction b with
  | nil =>
    unfold closeOk
    rw [List.nil_append, List.dropWhile_cons_of_neg (by decide)]
    rfl
  | cons c b2 ih =>
    rw [List.cons_append]
    unfold closeOk
    by_cases hcs : pyIsSpace c = true
    · rw [List.dropWhile_cons_of_pos hcs]
      exact ih (fun c2 hc2 => hb c2 (List.mem_cons_of_mem _ hc2))
    · rw [List.dropWhile_cons_of_neg hcs]
      unfold startsW
      rw [decide_eq_false (fun e => hb c (List.mem_cons_self _ _) e.symm), Bool.false_and]

theorem scanClose_through (L suffix : Str)
    (hno : ∀ a b, L = a ++ '}' :: b → closeOk (b ++ '}' :: suffix) = false)
    (hend : closeOk suffix = true) :
    scanClose (L ++ '}' :: suffix) = some (L ++ ['}']) := by
  induction L with
  | nil =>
    show scanClose ('}' :: suffix) = some ['}']
    unfold scanClose
    rw [if_pos ⟨rfl, hend⟩]
  | cons c L2 ih =>
    rw [List.cons_append]
    unfold scanClose
    rw [if_neg ?hcond]
    case hcond =>
      rintro ⟨h1, h2⟩
      have hf := hno [] L2 (by rw [h1]; rfl)
      rw [hf] at h2
      exact Bool.false_ne_true h2
    rw [ih (fun a b hab => hno (c :: a) b (by rw [hab]; rfl))]
    simp

theorem tryCapture_cons {r : Str} {c : Char} {t2 : Str} (h : r.dropWhile pyIsSpace = c :: t2) :
    tryCapture r = if c = '{' then (scanClose t2).map (fun b => '{' :: b) else none := by
  unfold tryCapture
  rw [h]

theorem fencedSearch_step (c : Char) (t : Str) (h : fenceHead (c :: t) = false) :
    fencedSearch (c :: t) = fencedSearch t := by
  unfold fencedSearch
  rw [h]
  rw [if_neg (by simp)]
  rw [← fencedSearch.eq_def]

theorem fencedSearch_hit (c : Char) (t : Str) (h : fenceHead (c :: t) = true) (cap : Str)
    (hcap : tryCapture ((c :: t).drop 7) = some cap) :
    fencedSearch (c :: t) = some cap := by
  unfold fencedSearch
  rw [if_pos h, hcap]

theorem pyStrip_obj (fs : List (Str × Json)) :
    pyStrip (serialize (Json.obj fs)) = serialize (Json.obj fs) := by
  unfold pyStrip
  rw [show serialize (Json.obj fs) = '{' :: (serializeFields fs ++ ['}']) from by simp [serialize]]
  rw [List.dropWhile_cons_of_neg (by decide)]
  rw [show ('{' :: (serializeFields fs ++ ['}'])).reverse
      = '}' :: ((serializeFields fs).reverse ++ ['{']) from by simp]
  rw [List.dropWhile_cons_of_neg (by decide)]
  rw [show ('}' :: ((serializeFields fs).reverse ++ ['{'])).reverse
      = '{' :: (serializeFields fs ++ ['}']) from by simp]

/-- C7 (counterexample).  "for any text containing no brace at all, extraction
fails with an ExtractionError" is false of the code: the strict `json.loads`
pass of `identify_from_image` (lines 305-308) accepts the brace-free text
`42` and extraction succeeds with the number 42. -/
theorem extract_structured_counterexample :
    (∀ c ∈ "42".data, ¬ c = '{' ∧ ¬ c = '}')
    ∧ extractStructured "42".data = Except.ok (Json.num 42 0) := by
  exact ⟨by decide, rfl⟩

/-- C7 (amended).  (a) extraction applied to the exact serialization of any
value returns that value (the strict parse); (b) an object whose
serialization is backtick-free, embedded in a ```json fenced block with
surrounding prose, is still recovered; (c) brace-free text that the strict
parser also rejects fails with the no-JSON extraction error. -/
theorem extract_structured_amended :
    (∀ j : Json, extractStructured (serialize j) = Except.ok j)
  ∧ (∀ fs : List (Str × Json),
      (∀ c ∈ serialize (Json.obj fs), ¬ c = backquote) →
      extractStructured ("Here is the result:\n```json\n".data
        ++ (serialize (Json.obj fs) ++ "\n```\nThanks!".data)) = Except.ok (Json.obj fs))
  ∧ (∀ text : Str, (∀ c ∈ text, ¬ c = '{') → loads text = none →
      extractStructured text = Except.error ExtractErr.noJson) := by
  refine ⟨?_, ?_, ?_⟩
  · intro j
    unfold extractStructured
    rw [loads_serialize]
  · intro fs hbt
    have hsub : ∀ c ∈ serializeFields fs, c ∈ serialize (Json.obj fs) := by
      intro c hc
      rw [show serialize (Json.obj fs) = '{' :: (serializeFields fs ++ ['}']) from by
        simp [serialize]]
      exact List.mem_cons_of_mem _ (List.mem_append_left _ hc)
    have hno : ∀ a b, serializeFields fs = a ++ '}' :: b →
        closeOk (b ++ '}' :: "\n```\nThanks!".data) = false := by
      intro a b hab
      refine closeOk_false_of_no_bq b _ (fun c hc => hbt c (hsub c ?_))
      rw [hab]
      exact List.mem_append_right a (List.mem_cons_of_mem _ hc)
    have hend : closeOk "\n```\nThanks!".data = true := by decide
    have hsc : scanClose (serializeFields fs ++ '}' :: "\n```\nThanks!".data)
        = some (serializeFields fs ++ ['}']) := scanClose_through _ _ hno hend
    have hd1 : ('\n' :: (serialize (Json.obj fs) ++ "\n```\nThanks!".data)).dropWhile pyIsSpace
        = '{' :: (serializeFields fs ++ '}' :: "\n```\nThanks!".data) := by
      rw [List.dropWhile_cons_of_pos (by decide)]
      rw [show serialize (Json.obj fs) ++ "\n```\nThanks!".data
          = '{' :: (serializeFields fs ++ '}' :: "\n```\nThanks!".data) from by simp [serialize]]
      rw [List.dropWhile_cons_of_neg (by decide)]
    have htc : tryCapture ('\n' :: (serialize (Json.obj fs) ++ "\n```\nThanks!".data))
        = some (serialize (Json.obj fs)) := by
      rw [tryCapture_cons hd1, if_pos rfl, hsc]
      simp [serialize]
    have hred : fencedSearch ("Here is the result:\n```json\n".data
        ++ (serialize (Json.obj fs) ++ "\n```\nThanks!".data))
        = (match tryCapture ('\n' :: (serialize (Json.obj fs) ++ "\n```\nThanks!".data)) with
           | some cap => some cap
           | none => fencedSearch (backquote :: backquote :: 'j' :: 's' :: 'o' :: 'n' :: '\n'
               :: (serialize (Json.obj fs) ++ "\n```\nThanks!".data))) := rfl
    have hfsrch : fencedSearch ("Here is the result:\n```json\n".data
        ++ (serialize (Json.obj fs) ++ "\n```\nThanks!".data))
        = some (serialize (Json.obj fs)) := by
      rw [hred, htc]
    have hld : loads ("Here is the result:\n```json\n".data
        ++ (serialize (Json.obj fs) ++ "\n```\nThanks!".data)) = none := rfl
    have hext : extract_json ("Here is the result:\n```json\n".data
        ++ (serialize (Json.obj fs) ++ "\n```\nThanks!".data)) = Except.ok (Json.obj fs) := by
      unfold extract_json
      rw [hfsrch]
      show (match loads (pyStrip (serialize (Json.obj fs))) with
        | some j => Except.ok j
        | none => Except.error ExtractErr.decodeErr) = Except.ok (Json.obj fs)
      rw [pyStrip_obj, loads_serialize]
    unfold extractStructured
    rw [hld]
    exact hext
  · intro text hbr hld
    unfold extractStructured
    rw [hld]
    unfold extract_json
    rw [fencedSearch_none_of_no_brace text hbr]
    rw [show nonGreedyBlocks text = [] from nonGreedyBlocksF_no_brace _ _ hbr]
    rw [greedySpan_none hbr]
    rfl

/-- Witness for the amended C7 at concrete inputs: a serialized boolean and
a serialized object carrying the float field `"confidence": 0.9` both
round-trip; a concrete backtick-free object inside a fenced block with prose
is recovered; and brace-free prose that the strict parser rejects yields the
no-JSON error. -/
theorem extract_structured_amended_witness :
    extractStructured (serialize (Json.bool true)) = Except.ok (Json.bool true)
  ∧ extractStructured (serialize (Json.obj [("confidence".data, Json.num 9 1)]))
      = Except.ok (Json.obj [("confidence".data, Json.num 9 1)])
  ∧ ((∀ c ∈ serialize (Json.obj [("name".data, Json.str "Mug".data)]), ¬ c = backquote)
      ∧ extractStructured ("Here is the result:\n```json\n".data
          ++ (serialize (Json.obj [("name".data, Json.str "Mug".data)])
              ++ "\n```\nThanks!".data))
        = Except.ok (Json.obj [("name".data, Json.str "Mug".data)]))
  ∧ ((∀ c ∈ "no json here".data, ¬ c = '{') ∧ loads "no json here".data = none
      ∧ extractStructured "no json here".data = Except.error ExtractErr.noJson) := by
  refine ⟨extract_structured_amended.1 (Json.bool true),
    extract_structured_amended.1 (Json.obj [("confidence".data, Json.num 9 1)]),
    ⟨by decide, extract_structured_amended.2.1 [("name".data, Json.str "Mug".data)] (by decide)⟩,
    ⟨by decide, rfl, extract_structured_amended.2.2 "no json here".data (by decide) rfl⟩⟩

/-- C10.  The non-greedy brace scan returns the first parseable fragment: on
prose-surrounded JSON whose only top-level object nests objects, extraction
returns a strict sub-object (here the value of the "b" field: the first
minimal brace span is unparseable, the second is that nested object); and
structurally: when no fenced block matches and some non-greedy block parses,
that value is returned without reaching the greedy fallback, which
determines the result exactly when no non-greedy block parses. -/
theorem nongreedy_subobject :
    (extract_json ("Result: ".data
        ++ serialize (Json.obj [("a".data, Json.obj [("x".data, Json.str "1".data)]),
            ("b".data, Json.obj [("y".data, Json.bool true)])]) ++ " end".data)
      = Except.ok (Json.obj [("y".data, Json.bool true)])
     ∧ loads (serialize (Json.obj [("a".data, Json.obj [("x".data, Json.str "1".data)]),
            ("b".data, Json.obj [("y".data, Json.bool true)])]))
        = some (Json.obj [("a".data, Json.obj [("x".data, Json.str "1".data)]),
            ("b".data, Json.obj [("y".data, Json.bool true)])])
     ∧ ¬ Json.obj [("y".data, Json.bool true)]
        = Json.obj [("a".data, Json.obj [("x".data, Json.str "1".data)]),
            ("b".data, Json.obj [("y".data, Json.bool true)])]
     ∧ ("b".data, Json.obj [("y".data, Json.bool true)])
        ∈ [("a".data, Json.obj [("x".data, Json.str "1".data)]),
           ("b".data, Json.obj [("y".data, Json.bool true)])])
  ∧ (∀ (text : Str) (j : Json), fencedSearch text = none →
      firstParsedBlock (nonGreedyBlocks text) = some j →
      extract_json text = Except.ok j)
  ∧ (∀ text : Str, fencedSearch text = none →
      firstParsedBlock (nonGreedyBlocks text) = none →
      extract_json text
        = (match greedySpan text with
           | none => Except.error ExtractErr.noJson
           | some g =>
             match loads g with
             | some j => Except.ok j
             | none => Except.error ExtractErr.decodeErr)) := by
  refine ⟨⟨rfl, loads_serialize _, ?_, ?_⟩, ?_, ?_⟩
  · intro h
    have hs : serialize (Json.obj [("y".data, Json.bool true)])
        = serialize (Json.obj [("a".data, Json.obj [("x".data, Json.str "1".data)]),
            ("b".data, Json.obj [("y".data, Json.bool true)])]) := by nth_rewrite 1 [h]; rfl
    exact absurd hs (by decide)
  · exact List.mem_cons_of_mem _ (List.mem_cons_self _ _)
  · intro text j h1 h2
    unfold extract_json
    rw [h1, h2]
  · intro text h1 h2
    unfold extract_json
    rw [h1, h2]

/-- Witness for C10's structural conjuncts at concrete inputs: a parsing
non-greedy block short-circuits extraction; with no parsing block the greedy
match decides the outcome. -/
theorem nongreedy_subobject_witness :
    fencedSearch "say \x7b\"k\": true\x7d ok".data = none
    ∧ firstParsedBlock (nonGreedyBlocks "say \x7b\"k\": true\x7d ok".data)
        = some (Json.obj [("k".data, Json.bool true)])
    ∧ extract_json "say \x7b\"k\": true\x7d ok".data
        = Except.ok (Json.obj [("k".data, Json.bool true)])
    ∧ fencedSearch "nothing".data = none
    ∧ firstParsedBlock (nonGreedyBlocks "nothing".data) = none
    ∧ extract_json "nothing".data
        = (match greedySpan "nothing".data with
           | none => Except.error ExtractErr.noJson
           | some g =>
             match loads g with
             | some j => Except.ok j
             | none => Except.error ExtractErr.decodeErr) := by
  refine ⟨rfl, rfl, nongreedy_subobject.2.1 _ _ rfl rfl, rfl, rfl,
    nongreedy_subobject.2.2 _ rfl rfl⟩

/-! ## The identify flow (`identify_from_image` and the identify route) -/

/-- The oracle environment of one identify call: credential, resolved model
name, retry ceiling, and the would-be responses of the successive
`generateContent` POSTs (a second sequence for the 404-triggered
re-resolution). -/
structure GeminiEnv where
  apiKey : Str
  model : Str
  maxRetries : Nat
  responses : Nat → HResp
  responses2 : Nat → HResp

/-- Lines 283-290 of `identify_from_image`: the retried POST, re-resolving
and POSTing again once if the first result is a 404. -/
def geminiCall (env : GeminiEnv) : HResp :=
  if (post_with_retry env.maxRetries env.responses).1.status = 404
  then (post_with_retry env.maxRetries env.responses2).1
  else (post_with_retry env.maxRetries env.responses).1

/-- `data["candidates"][0]["content"]["parts"][0]["text"]`, any failure
collapsing to `none` (the `except` of line 302). -/
def candidatesText (data : PyVal) : Option Str :=
  match data with
  | PyVal.vdict d =>
    match rget d "candidates".data with
    | some (PyVal.vlist (c0 :: _)) =>
      match c0 with
      | PyVal.vdict cd =>
        match rget cd "content".data with
        | some (PyVal.vdict cont) =>
          match rget cont "parts".data with
          | some (PyVal.vlist (p0 :: _)) =>
            match p0 with
            | PyVal.vdict pd =>
              match rget pd "text".data with
              | some (PyVal.vstr s) => some s
              | _ => none
            | _ => none
          | _ => none
        | _ => none
      | _ => none
    | _ => none
  | _ => none

/-- Embedding of `identify_from_image`: missing-key check, retried POST, a
redacted `ValueError` on a non-2xx status, then structured-output text
extraction, strict parse, best-effort extraction, and re-serialization.
Every failure is a `ValueError` (`PyErr.err`); no rate-limit-specific
exception type exists anywhere in the module. -/
def identify_from_image (env : GeminiEnv) : Except PyErr Str :=
  if env.apiKey = [] then Except.error (PyErr.err "GEMINI_API_KEY is not set".data)
  else if 400 ≤ (geminiCall env).status then
    Except.error (PyErr.err
      (gemini_error_msg (geminiCall env).status env.model env.apiKey (geminiCall env).text))
  else
    match (geminiCall env).jsonBody with
    | none => Except.error (PyErr.err "Unexpected Gemini response shape".data)
    | some data =>
      match candidatesText data with
      | none => Except.error (PyErr.err "Unexpected Gemini response shape".data)
      | some text =>
        match loads text with
        | some obj => Except.ok (serialize obj)
        | none =>
          match extract_json text with
          | Except.ok obj => Except.ok (serialize obj)
          | Except.error ExtractErr.noJson =>
            Except.error (PyErr.err "No JSON object found in model output".data)
          | Except.error ExtractErr.decodeErr =>
            Except.error (PyErr.err "Expecting value".data)

/-- Outcome of `POST /v1/identify`: the handler body completed with the
extracted object and raw text (the response shaping of lines 51-61 is
outside every claim), or an `HTTPException` with status, detail and an
optional `Retry-After` header value. -/
inductive IdentifyResult where
  | completed (obj : Json) (raw_text : Str)
  | httpError (status : Nat) (detail : Str) (retryAfter : Option Str)

/-- Embedding of the `identify` route handler (routes_identify.py lines
42-90).  `GeminiRateLimitError` and `GeminiRequestError` are imported from
`app.core.gemini` but defined nowhere in that module, and
`identify_from_image` raises only `ValueError`, so the first two `except`
clauses can never fire: every raised error reaches the generic handler,
a 422 whose detail is `f"\x7be\x7d\n\nRAW:\n\x7braw_text\x7d"` with no
`Retry-After` header. -/
def identify (env : GeminiEnv) : IdentifyResult :=
  match identify_from_image env with
  | Except.error (PyErr.err msg) =>
    IdentifyResult.httpError 422 (msg ++ "\n\nRAW:\n".data) none
  | Except.ok raw_text =>
    match (match loads raw_text with
           | some o => Except.ok o
           | none => extract_json raw_text) with
    | Except.ok obj => IdentifyResult.completed obj raw_text
    | Except.error ExtractErr.noJson =>
      IdentifyResult.httpError 422
        ("No JSON object found in model output\n\nRAW:\n".data ++ raw_text) none
    | Except.error ExtractErr.decodeErr =>
      IdentifyResult.httpError 422 ("Expecting value\n\nRAW:\n".data ++ raw_text) none

/-- C2 (code bug).  When every `generateContent` attempt is rate-limited (429
with a `Retry-After` header present), the retry loop exhausts the ceiling and
`identify_from_image` raises its generic `ValueError`; the route's rate-limit
handler is dead code (its exception class is imported but defined nowhere),
so the client receives a generic 422 with no `Retry-After` header instead of
the distinct 429 rate-limit condition the spec requires. -/
theorem rate_limit_swallowed (env : GeminiEnv) (w : Str)
    (hkey : env.apiKey ≠ [])
    (hall : ∀ i, (env.responses i).status = 429
      ∧ (env.responses i).retryAfterHeader = some w) :
    identify env
      = IdentifyResult.httpError 422
          (gemini_error_msg 429 env.model env.apiKey (env.responses env.maxRetries).text
            ++ "\n\nRAW:\n".data) none := by
  have hretry : ∀ i, i ≤ env.maxRetries → retryable (env.responses i) = true := by
    intro i _
    unfold retryable
    rw [(hall i).1]
    decide
  have hpost : post_with_retry env.maxRetries env.responses
      = (env.responses env.maxRetries, env.maxRetries + 1) := by
    unfold post_with_retry
    exact postLoop_exhaust env.responses env.maxRetries hretry 0 (by omega)
  have hcall : geminiCall env = env.responses env.maxRetries := by
    unfold geminiCall
    rw [hpost]
    simp [(hall env.maxRetries).1]
  have hfi : identify_from_image env
      = Except.error (PyErr.err
          (gemini_error_msg 429 env.model env.apiKey
            (env.responses env.maxRetries).text)) := by
    unfold identify_from_image
    rw [if_neg hkey, hcall, (hall env.maxRetries).1]
    rw [if_pos (by decide)]
  unfold identify
  rw [hfi]

/-- Witness for C2's code-bug theorem: ceiling 2, every attempt a 429
carrying `Retry-After: 7`, yet the route result is a 422 with no
Retry-After value. -/
theorem rate_limit_swallowed_witness :
    identify ⟨"K".data, "gemini".data, 2,
        (fun _ => { status := 429, retryAfterHeader := some "7".data, text := "BODY".data }),
        (fun _ => { status := 200 })⟩
      = IdentifyResult.httpError 422
          (gemini_error_msg 429 "gemini".data "K".data "BODY".data ++ "\n\nRAW:\n".data)
          none :=
  rate_limit_swallowed _ "7".data (by decide) (fun i => ⟨rfl, rfl⟩)

end AIShopping
